import Mathlib

/-!
Formal model of the `nrepl-rs` client core: the bencode codec
(`src/codec.rs`), the message model (`src/message.rs`), request builders
(`src/ops.rs`) and the connection/session engine (`src/connection.rs`).

Rust machine integers (`usize`) are modelled as `Nat`, with the overflow
checks that the source performs written out explicitly against
`USIZE_SIZE = 2 ^ 64`.  Byte buffers are `List Nat` (each element a byte
value).  Fallible code returns `Except NReplError`.
-/

deriving instance DecidableEq for Except

namespace NRepl

/-- Model of `usize::MAX + 1` on a 64-bit target; `checked_add` overflows
exactly when the mathematical sum reaches this bound. -/
def USIZE_SIZE : Nat := 2 ^ 64

/-! ## Decimal and hexadecimal rendering (Rust `format!("{}")` / `{:02x}`) -/

/-- Little-endian base-10 digit values of `n`; the first argument is fuel
(`n` itself is always enough fuel, since the value shrinks by a factor of
ten per step). -/
def natDecAux : Nat → Nat → List Nat
  | 0, _ => []
  | fuel + 1, n => if n = 0 then [] else n % 10 :: natDecAux fuel (n / 10)

/-- ASCII bytes of the usual decimal rendering of `n` (as Rust's
`format!("{}", n)` for an unsigned integer). -/
def natDecDigits (n : Nat) : List Nat :=
  if n = 0 then [48] else ((natDecAux n n).map (· + 48)).reverse

/-- Decimal rendering of `n` as a string. -/
def decStr (n : Nat) : String := ⟨(natDecDigits n).map Char.ofNat⟩

/-- ASCII bytes of the decimal rendering of a signed integer (leading `-`
for negative values). -/
def intDecBytes (i : Int) : List Nat :=
  if i < 0 then 45 :: natDecDigits i.natAbs else natDecDigits i.natAbs

/-- Decimal rendering of a signed integer as a string. -/
def intDecStr (i : Int) : String := ⟨(intDecBytes i).map Char.ofNat⟩

/-- One lowercase hexadecimal digit. -/
def hexDigitChar (n : Nat) : Char :=
  if n < 10 then Char.ofNat (48 + n) else Char.ofNat (87 + n)

/-- Rust `format!("{:02x}", b)` for a byte value. -/
def hexByte (b : Nat) : String := ⟨[hexDigitChar (b / 16 % 16), hexDigitChar (b % 16)]⟩

/-! ## Error type (`src/error.rs`) -/

/-- `NReplError` from `error.rs`.  `Connection` carries only a message in
the model (the underlying `std::io::Error` is reduced to its text);
`Timeout`'s `Duration` is modelled in whole seconds. -/
inductive NReplError where
  | Connection (message : String)
  | Codec (message : String) (position : Nat) (buffer_preview : Option String)
  | Protocol (message : String) (response : Option String)
  | SessionNotFound (id : String)
  | OperationFailed (message : String)
  | Timeout (operation : String) (duration : Nat)
deriving DecidableEq, Repr

/-- `NReplError::codec`. -/
def NReplError.codec (message : String) (position : Nat) : NReplError :=
  .Codec message position none

/-- Hex preview of the first 100 buffer bytes, as built by
`NReplError::codec_with_preview`. -/
def hexPreview (buffer : List Nat) : String :=
  String.intercalate " " ((buffer.take 100).map hexByte)

/-- `NReplError::codec_with_preview`. -/
def NReplError.codec_with_preview (message : String) (position : Nat)
    (buffer : List Nat) : NReplError :=
  .Codec message position (some (" (buffer preview: " ++ hexPreview buffer ++ ")"))

/-- `NReplError::protocol`. -/
def NReplError.protocol (message : String) : NReplError := .Protocol message none

/-- `NReplError::protocol_with_response`. -/
def NReplError.protocol_with_response (message : String) (response : String) :
    NReplError :=
  .Protocol message (some (" (response: " ++ response ++ ")"))

/-- Does an error use the `Codec` constructor?  (`read_response` in
`connection.rs` branches on exactly this.) -/
def NReplError.isCodec : NReplError → Bool
  | .Codec _ _ _ => true
  | _ => false

/-! ## Bencode scanner (`find_bencode_end`, `src/codec.rs`) -/

/-- Maximum allowed length for a single bencode string (100 MB),
`codec.rs` line 27. -/
def MAX_STRING_LENGTH : Nat := 100 * 1024 * 1024

/-- The scan loop `while pos < data.len() && data[pos] != target`:
first position `≥ pos` holding `target`, or `data.length` when there is
none.  Fuel-driven so that it reduces definitionally; `data.length - pos`
steps always suffice. -/
def scanFor (target : Nat) : Nat → List Nat → Nat → Nat
  | 0, _, pos => pos
  | fuel + 1, data, pos =>
    if pos < data.length then
      if data.getD pos 0 = target then pos else scanFor target fuel data (pos + 1)
    else pos

/-- Scan for the terminating `e` of an integer (byte 101). -/
def scanToE (data : List Nat) (pos : Nat) : Nat :=
  scanFor 101 (data.length - pos) data pos

/-- Scan for the `:` separating a string length from its payload (byte 58). -/
def scanToColon (data : List Nat) (pos : Nat) : Nat :=
  scanFor 58 (data.length - pos) data pos

/-- ASCII digit test, the `b'0'..=b'9'` match guard. -/
def isDigitByte (b : Nat) : Bool := decide (48 ≤ b) && decide (b ≤ 57)

/-- Value of a big-endian ASCII digit string (what `parse::<usize>`
computes on an all-digit input). -/
def digitsVal (bs : List Nat) : Nat := bs.foldl (fun acc b => acc * 10 + (b - 48)) 0

/-- Is a byte a UTF-8 continuation byte? -/
def utf8Cont (b : Nat) : Bool := decide (128 ≤ b) && decide (b ≤ 191)

mutual
/-- Decode a UTF-8 byte sequence to characters, rejecting ill-formed
sequences (overlong forms, surrogates, values above U+10FFFF) exactly as
`std::str::from_utf8` does.  The model for both UTF-8 validation and
`String` construction by serde.  Fuel-driven; `utf8Decode?` supplies fuel
that can never run out (ascii costs one unit per byte, multi-byte
sequences two units for up to four bytes). -/
def utf8DecodeChars : Nat → List Nat → Option (List Char)
  | _, [] => some []
  | 0, _ :: _ => none
  | fuel + 1, b :: rest =>
    if b ≤ 0x7F then
      (utf8DecodeChars fuel rest).map (Char.ofNat b :: ·)
    else utf8DecodeMulti fuel b rest

/-- Multi-byte sequences of `utf8DecodeChars` (lead byte `b ≥ 0x80`). -/
def utf8DecodeMulti : Nat → Nat → List Nat → Option (List Char)
  | 0, _, _ => none
  | fuel + 1, b, rest =>
    if 0xC2 ≤ b ∧ b ≤ 0xDF then
      match rest with
      | b1 :: r =>
        if utf8Cont b1 then
          (utf8DecodeChars fuel r).map (Char.ofNat ((b - 0xC0) * 64 + (b1 - 0x80)) :: ·)
        else none
      | [] => none
    else if 0xE0 ≤ b ∧ b ≤ 0xEF then
      match rest with
      | b1 :: b2 :: r =>
        let lo1 : Nat := if b = 0xE0 then 0xA0 else 0x80
        let hi1 : Nat := if b = 0xED then 0x9F else 0xBF
        if (decide (lo1 ≤ b1) && decide (b1 ≤ hi1)) && utf8Cont b2 then
          (utf8DecodeChars fuel r).map
            (Char.ofNat ((b - 0xE0) * 4096 + (b1 - 0x80) * 64 + (b2 - 0x80)) :: ·)
        else none
      | _ => none
    else if 0xF0 ≤ b ∧ b ≤ 0xF4 then
      match rest with
      | b1 :: b2 :: b3 :: r =>
        let lo1 : Nat := if b = 0xF0 then 0x90 else 0x80
        let hi1 : Nat := if b = 0xF4 then 0x8F else 0xBF
        if ((decide (lo1 ≤ b1) && decide (b1 ≤ hi1)) && utf8Cont b2) && utf8Cont b3 then
          (utf8DecodeChars fuel r).map
            (Char.ofNat ((b - 0xF0) * 262144 + (b1 - 0x80) * 4096 +
              (b2 - 0x80) * 64 + (b3 - 0x80)) :: ·)
        else none
      | _ => none
    else none
end

/-- Decode UTF-8 bytes to a `String` (`std::str::from_utf8` + ownership). -/
def utf8Decode? (bs : List Nat) : Option String :=
  (utf8DecodeChars (2 * bs.length + 2) bs).map fun cs => ⟨cs⟩

/-- Model of `str::parse::<usize>()` as used on a bencode length prefix:
succeeds on a nonempty all-digit string whose value fits in `usize`.
(The leading `+` Rust would also accept cannot occur here, because the
scanner only enters the string case on a digit byte.) -/
def parseUsize? (bs : List Nat) : Option Nat :=
  if bs ≠ [] ∧ bs.all isDigitByte ∧ digitsVal bs < USIZE_SIZE then
    some (digitsVal bs)
  else none

/-- The `b'0'..=b'9'` (string) arm of `find_bencode_end`, which contains
no recursion: collect the digits of the length `L` up to `:`, reject
`L > MAX_STRING_LENGTH` before touching the payload, compute `pos + L`
with an explicit overflow check (`checked_add`), and report a truncated
payload as the recoverable "Incomplete string data" codec error. -/
def fbeString (data : List Nat) (start : Nat) : Except NReplError Nat :=
  let colon := scanToColon data start
  let len_str := (data.drop start).take (colon - start)
  if colon < data.length then
    let pos := colon + 1
    if (utf8Decode? len_str).isSome then
      match parseUsize? len_str with
      | none => .error (NReplError.codec "Invalid string length value" pos)
      | some len =>
        if len > MAX_STRING_LENGTH then
          .error (NReplError.codec
            ("String length " ++ decStr len ++ " exceeds maximum allowed size of "
              ++ decStr MAX_STRING_LENGTH ++ " bytes ("
              ++ decStr (MAX_STRING_LENGTH / (1024 * 1024)) ++ " MB)") pos)
        else if USIZE_SIZE ≤ pos + len then
          .error (NReplError.codec
            ("String length " ++ decStr len
              ++ " would cause integer overflow at position " ++ decStr pos) pos)
        else if pos + len > data.length then
          .error (NReplError.codec_with_preview
            ("Incomplete string data: claims length " ++ decStr len
              ++ " but only " ++ decStr (data.length - pos) ++ " bytes available")
            pos data)
        else .ok (pos + len)
    else .error (NReplError.codec "Invalid string length encoding" pos)
  else
    .error (NReplError.codec_with_preview "Incomplete string length" data.length data)

mutual

/-- `find_bencode_end` proper, fuel-driven (`none` = fuel exhausted,
which `fbeVal_total` below shows never happens for the fuel used by
`find_bencode_end`).  Byte 105 = `i`, 108 = `l`, 100 = `d`, 101 = `e`. -/
def fbeVal : Nat → List Nat → Nat → Option (Except NReplError Nat)
  | 0, _, _ => none
  | fuel + 1, data, start =>
    if start < data.length then
      if data.getD start 0 = 105 then
        if scanToE data (start + 1) < data.length then
          some (.ok (scanToE data (start + 1) + 1))
        else
          some (.error (NReplError.codec_with_preview "Incomplete integer"
            (scanToE data (start + 1)) data))
      else if data.getD start 0 = 108 then fbeItems fuel data (start + 1)
      else if data.getD start 0 = 100 then fbePairs fuel data (start + 1)
      else if isDigitByte (data.getD start 0) then some (fbeString data start)
      else some (.error (NReplError.codec_with_preview
        ("Invalid bencode byte: 0x" ++ hexByte (data.getD start 0)) start data))
    else
      some (.error (NReplError.codec_with_preview "Incomplete bencode message" start data))

/-- The `l` loop: `while pos < data.len() && data[pos] != b'e'`. -/
def fbeItems : Nat → List Nat → Nat → Option (Except NReplError Nat)
  | 0, _, _ => none
  | fuel + 1, data, pos =>
    if pos < data.length then
      if data.getD pos 0 = 101 then some (.ok (pos + 1))
      else
        match fbeVal fuel data pos with
        | none => none
        | some (.error e) => some (.error e)
        | some (.ok pos') => fbeItems fuel data pos'
    else some (.error (NReplError.codec_with_preview "Incomplete list" pos data))

/-- The `d` loop: scan a key and a value per iteration. -/
def fbePairs : Nat → List Nat → Nat → Option (Except NReplError Nat)
  | 0, _, _ => none
  | fuel + 1, data, pos =>
    if pos < data.length then
      if data.getD pos 0 = 101 then some (.ok (pos + 1))
      else
        match fbeVal fuel data pos with
        | none => none
        | some (.error e) => some (.error e)
        | some (.ok posK) =>
          match fbeVal fuel data posK with
          | none => none
          | some (.error e) => some (.error e)
          | some (.ok posV) => fbePairs fuel data posV
    else some (.error (NReplError.codec_with_preview "Incomplete dict" pos data))

end

/-- Result standing in for fuel exhaustion; `find_bencode_end_total`
below proves it is never produced. -/
def fuelSentinel : NReplError := NReplError.codec "scanner fuel exhausted" 0

/-- `find_bencode_end(data, start)`: number of bytes up to the end of one
complete bencode value.  `2 * data.length + 2` units of fuel are always
sufficient (proved below), so the sentinel default is dead code. -/
def find_bencode_end (data : List Nat) (start : Nat) : Except NReplError Nat :=
  (fbeVal (2 * data.length + 2) data start).getD (.error fuelSentinel)

/-! ## Message model (`src/message.rs`) -/

/-- UTF-8 encoding of one character (inverse of `utf8DecodeChars` on its
range); used to model Rust `String` payloads at the byte level. -/
def utf8EncodeChar (c : Char) : List Nat :=
  let n := c.toNat
  if n ≤ 0x7F then [n]
  else if n ≤ 0x7FF then [0xC0 + n / 64, 0x80 + n % 64]
  else if n ≤ 0xFFFF then [0xE0 + n / 4096, 0x80 + n / 64 % 64, 0x80 + n % 64]
  else [0xF0 + n / 262144, 0x80 + n / 4096 % 64, 0x80 + n / 64 % 64, 0x80 + n % 64]

/-- The UTF-8 bytes of a Rust `String` (`s.as_bytes()`); `(strBytes s).length`
is Rust's `s.len()`. -/
def strBytes (s : String) : List Nat := (s.data.map utf8EncodeChar).flatten

mutual
/-- `BencodeValue` (`message.rs`): the tagged union of wire value shapes.
Strings are kept as raw bytes, since UTF-8 validity is only checked where
serde builds a Rust `String` from them.  Mutually inductive with its own
list/pair spines so that functions over it are structurally recursive. -/
inductive BVal where
  | str (bs : List Nat)
  | int (i : Int)
  | list (vs : BValList)
  | dict (ps : BValPairs)

inductive BValList where
  | nil
  | cons (v : BVal) (vs : BValList)

inductive BValPairs where
  | nil
  | cons (k : List Nat) (v : BVal) (ps : BValPairs)
end

/-- Embed an ordinary list of values into the `BValList` spine. -/
def toBValList : List BVal → BValList
  | [] => .nil
  | v :: vs => .cons v (toBValList vs)

/-- Embed an ordinary association list into the `BValPairs` spine. -/
def toBValPairs : List (List Nat × BVal) → BValPairs
  | [] => .nil
  | (k, v) :: ps => .cons k v (toBValPairs ps)

/-- Bencode serialization of a byte string: `<len>:<bytes>`. -/
def encStrBytes (bs : List Nat) : List Nat := natDecDigits bs.length ++ 58 :: bs

mutual
/-- Bencode serialization of a value (what `serde_bencode::to_bytes`
emits): `<len>:<bytes>` strings, `i…e` integers, `l…e` lists, `d…e`
dictionaries. -/
def encBVal : BVal → List Nat
  | .str bs => encStrBytes bs
  | .int i => 105 :: (intDecBytes i ++ [101])
  | .list vs => 108 :: (encBValList vs ++ [101])
  | .dict ps => 100 :: (encBValPairs ps ++ [101])

def encBValList : BValList → List Nat
  | .nil => []
  | .cons v vs => encBVal v ++ encBValList vs

def encBValPairs : BValPairs → List Nat
  | .nil => []
  | .cons k v ps => encStrBytes k ++ (encBVal v ++ encBValPairs ps)
end

mutual
/-- Well-formedness for the scanner round-trip: every string payload (and
every dictionary key) is within `MAX_STRING_LENGTH`. -/
def bvalWF : BVal → Bool
  | .str bs => decide (bs.length ≤ MAX_STRING_LENGTH)
  | .int _ => true
  | .list vs => bvalListWF vs
  | .dict ps => bvalPairsWF ps

def bvalListWF : BValList → Bool
  | .nil => true
  | .cons v vs => bvalWF v && bvalListWF vs

def bvalPairsWF : BValPairs → Bool
  | .nil => true
  | .cons k v ps => (decide (k.length ≤ MAX_STRING_LENGTH) && bvalWF v) && bvalPairsWF ps
end

/-- `Request` (`message.rs`).  The source field `prefix` is called
`prefixStr` here because `prefix` is reserved in Lean; it is still
serialized under the wire key "prefix". -/
structure Request where
  op : String
  id : String
  session : Option String
  code : Option String
  line : Option Int
  column : Option Int
  file : Option String
  file_path : Option String
  file_name : Option String
  interrupt_id : Option String
  stdin : Option String
  verbose : Option Bool
  prefixStr : Option String
  complete_fn : Option String
  ns : Option String
  options : Option String
  sym : Option String
  lookup_fn : Option String
  middleware : Option (List String)
  extra_namespaces : Option (List String)
deriving DecidableEq, Repr

/-- A `skip_serializing_if = "Option::is_none"` string field. -/
def optStrField (k : String) : Option String → List (List Nat × BVal)
  | none => []
  | some v => [(strBytes k, .str (strBytes v))]

/-- An optional `i64` field. -/
def optIntField (k : String) : Option Int → List (List Nat × BVal)
  | none => []
  | some i => [(strBytes k, .int i)]

/-- An optional `bool` field (serde_bencode writes booleans as `i1e`/`i0e`). -/
def optBoolField (k : String) : Option Bool → List (List Nat × BVal)
  | none => []
  | some b => [(strBytes k, .int (if b then 1 else 0))]

/-- An optional `Vec<String>` field. -/
def optStrListField (k : String) : Option (List String) → List (List Nat × BVal)
  | none => []
  | some ss => [(strBytes k, .list (toBValList (ss.map fun s => .str (strBytes s))))]

/-- The dictionary of present fields that serde serializes for a
`Request` (field order as declared; serde_bencode's canonical key
ordering does not affect any property stated below, since the scanner is
order-insensitive). -/
def requestToBVal (r : Request) : BVal :=
  .dict (toBValPairs (
    [(strBytes "op", .str (strBytes r.op)), (strBytes "id", .str (strBytes r.id))]
    ++ optStrField "session" r.session
    ++ optStrField "code" r.code
    ++ optIntField "line" r.line
    ++ optIntField "column" r.column
    ++ optStrField "file" r.file
    ++ optStrField "file-path" r.file_path
    ++ optStrField "file-name" r.file_name
    ++ optStrField "interrupt-id" r.interrupt_id
    ++ optStrField "stdin" r.stdin
    ++ optBoolField "verbose" r.verbose
    ++ optStrField "prefix" r.prefixStr
    ++ optStrField "complete-fn" r.complete_fn
    ++ optStrField "ns" r.ns
    ++ optStrField "options" r.options
    ++ optStrField "sym" r.sym
    ++ optStrField "lookup-fn" r.lookup_fn
    ++ optStrListField "middleware" r.middleware
    ++ optStrListField "extra-namespaces" r.extra_namespaces))

/-- `encode_request` (`codec.rs`): bencode bytes of the request.  The
source wraps this in `Result` only because serde could reject an
unserializable shape, which cannot happen for `Request` values; the model
is therefore total. -/
def encode_request (r : Request) : List Nat := encBVal (requestToBVal r)

/-- `Session` (`session.rs`): an opaque server-issued identifier. -/
structure Session where
  id : String
deriving DecidableEq, Repr

/-- `CompletionCandidate` (`message.rs`). -/
structure CompletionCandidate where
  candidate : String
  ns : Option String
  candidate_type : Option String
deriving DecidableEq, Repr

/-- `Response` (`message.rs`).  Nested `BTreeMap`s are modelled as sorted
association lists. -/
structure Response where
  id : String
  session : String
  status : List String
  value : Option String
  out : Option String
  err : Option String
  ns : Option String
  new_session : Option String
  sessions : Option (List String)
  completions : Option (List CompletionCandidate)
  ops : Option (List (String × List (String × String)))
  versions : Option (List (String × List (String × String)))
  aux : Option (List (String × String))
  info : Option (List (String × String))
  middleware : Option (List String)
  unresolved_middleware : Option (List String)
deriving DecidableEq, Repr

/-- A response whose optional fields all take their serde defaults:
`session` defaults to `""`, `status` to `[]`, everything else to absent. -/
def baseResponse (id : String) : Response :=
  ⟨id, "", [], none, none, none, none, none, none, none, none, none, none, none,
    none, none⟩

/-- `EvalResult` (`message.rs`). -/
structure EvalResult where
  value : Option String
  output : List String
  error : List String
  ns : Option String
deriving DecidableEq, Repr

/-- `EvalResult::new`. -/
def EvalResult.new : EvalResult := ⟨none, [], [], none⟩

/-! ## Response deserialization (model of `serde_bencode::from_bytes::<Response>`
plus the custom deserializers in `message.rs`) -/

/-- Model of `str::parse::<i64>()` on the digits of a bencode integer. -/
def parseI64? (bs : List Nat) : Option Int :=
  match bs with
  | 45 :: ds =>
    if ds ≠ [] ∧ ds.all isDigitByte ∧ digitsVal ds ≤ 2 ^ 63 then
      some (-(digitsVal ds : Int))
    else none
  | ds =>
    if ds ≠ [] ∧ ds.all isDigitByte ∧ digitsVal ds < 2 ^ 63 then
      some ((digitsVal ds : Int))
    else none

mutual
/-- Structural phase of bencode deserialization: parse one value off the
front of the byte list.  `none` covers both malformed input and fuel
exhaustion; either way `decode_response` raises a codec error, exactly as
the source maps every serde failure to `NReplError::Codec`. -/
def parseVal : Nat → List Nat → Option (BVal × List Nat)
  | 0, _ => none
  | fuel + 1, bytes =>
    match bytes with
    | [] => none
    | 105 :: rest =>
      let ds := rest.takeWhile fun b => b ≠ 101
      (match rest.drop ds.length with
       | 101 :: rest' => (parseI64? ds).map fun n => (.int n, rest')
       | _ => none)
    | 108 :: rest => parseItems fuel rest
    | 100 :: rest => parseEntries fuel rest
    | b :: _ =>
      if isDigitByte b then
        let ds := bytes.takeWhile fun x => x ≠ 58
        (match bytes.drop ds.length with
         | 58 :: rest' =>
           match parseUsize? ds with
           | some len =>
             if len ≤ rest'.length then some (.str (rest'.take len), rest'.drop len)
             else none
           | none => none
         | _ => none)
      else none

/-- Parse list items up to the closing `e`. -/
def parseItems : Nat → List Nat → Option (BVal × List Nat)
  | 0, _ => none
  | fuel + 1, bytes =>
    match bytes with
    | 101 :: rest => some (.list .nil, rest)
    | _ =>
      match parseVal fuel bytes with
      | some (v, rest) =>
        (match parseItems fuel rest with
         | some (.list vs, rest') => some (.list (.cons v vs), rest')
         | _ => none)
      | none => none

/-- Parse dictionary entries up to the closing `e`; keys must be byte
strings (serde_bencode rejects anything else). -/
def parseEntries : Nat → List Nat → Option (BVal × List Nat)
  | 0, _ => none
  | fuel + 1, bytes =>
    match bytes with
    | 101 :: rest => some (.dict .nil, rest)
    | _ =>
      match parseVal fuel bytes with
      | some (.str k, rest) =>
        (match parseVal fuel rest with
         | some (v, rest') =>
           (match parseEntries fuel rest' with
            | some (.dict ps, rest'') => some (.dict (.cons k v ps), rest'')
            | _ => none)
         | none => none)
      | some _ => none
      | none => none
end

/-- Byte-lexicographic string order: the `Ord` used by Rust's
`BTreeMap<String, _>` (UTF-8 byte order coincides with code-point order). -/
def charListLt : List Char → List Char → Bool
  | [], [] => false
  | [], _ :: _ => true
  | _ :: _, [] => false
  | c :: cs, d :: ds =>
    if c.toNat < d.toNat then true
    else if d.toNat < c.toNat then false
    else charListLt cs ds

/-- Insert into a sorted association list, replacing an existing binding
(`BTreeMap::insert` semantics: later duplicates win). -/
def btreeInsert {α : Type} (k : String) (v : α) : List (String × α) → List (String × α)
  | [] => [(k, v)]
  | (k', v') :: rest =>
    if charListLt k.data k'.data then (k, v) :: (k', v') :: rest
    else if k = k' then (k, v) :: rest
    else (k', v') :: btreeInsert k v rest

/-- Build a `BTreeMap` model from entries in arrival order. -/
def btreeOfList {α : Type} (kvs : List (String × α)) : List (String × α) :=
  kvs.foldl (fun m kv => btreeInsert kv.1 kv.2 m) []

/-- The quote-stripping step of `BencodeValue::to_string_repr`: drop one
layer of literal double quotes (`s[1..s.len()-1]`; both quotes are ASCII,
so character-level slicing coincides with the source's byte slicing). -/
def stripQuotes (s : String) : String :=
  match s.data with
  | c :: cs => if c = '"' ∧ cs ≠ [] ∧ cs.getLast? = some '"' then ⟨cs.dropLast⟩ else s
  | [] => s

mutual
/-- `BencodeValue::to_string_repr` combined with the UTF-8 validation
serde performs while building the `BencodeValue` itself: `none` exactly
when some string leaf is not valid UTF-8 (which fails the untagged
deserialization in Rust). -/
def toStringRepr : BVal → Option String
  | .str bs => (utf8Decode? bs).map stripQuotes
  | .int i => some (intDecStr i)
  | .list vs =>
    (reprItems vs).map fun items => "[" ++ String.intercalate ", " items ++ "]"
  | .dict ps =>
    (reprEntries ps).map fun kvs =>
      "\x7b" ++
        String.intercalate ", " ((btreeOfList kvs).map fun kv => kv.1 ++ ": " ++ kv.2)
        ++ "\x7d"

def reprItems : BValList → Option (List String)
  | .nil => some []
  | .cons v vs =>
    match toStringRepr v, reprItems vs with
    | some s, some ss => some (s :: ss)
    | _, _ => none

def reprEntries : BValPairs → Option (List (String × String))
  | .nil => some []
  | .cons k v ps =>
    match utf8Decode? k, toStringRepr v, reprEntries ps with
    | some ks, some s, some ss => some ((ks, s) :: ss)
    | _, _, _ => none
end

/-- Deserialize a plain `String` field. -/
def getStrB : BVal → Option String
  | .str bs => utf8Decode? bs
  | _ => none

/-- Deserialize a `Vec<String>` spine. -/
def strListOfBValList : BValList → Option (List String)
  | .nil => some []
  | .cons v vs =>
    match getStrB v, strListOfBValList vs with
    | some s, some ss => some (s :: ss)
    | _, _ => none

/-- Deserialize a `Vec<String>` field. -/
def strListOfBVal : BVal → Option (List String)
  | .list vs => strListOfBValList vs
  | _ => none

/-- One `CompletionCandidate` dictionary (`candidate` required, `ns` and
`type` optional, unknown keys ignored, duplicate known keys rejected). -/
def buildCandidate :
    CompletionCandidate → List String → BValPairs →
      Option (CompletionCandidate × List String)
  | c, seen, .nil => some (c, seen)
  | c, seen, .cons kb v ps =>
    match utf8Decode? kb with
    | none => none
    | some k =>
      if (k = "candidate" ∨ k = "ns" ∨ k = "type") ∧ k ∈ seen then none
      else
        match
          (if k = "candidate" then (getStrB v).map fun s => {c with candidate := s}
           else if k = "ns" then (getStrB v).map fun s => {c with ns := some s}
           else if k = "type" then
             (getStrB v).map fun s => {c with candidate_type := some s}
           else some c) with
        | none => none
        | some c' => buildCandidate c' (k :: seen) ps

/-- Deserialize one completion candidate. -/
def candidateOfBVal : BVal → Option CompletionCandidate
  | .dict ps =>
    match buildCandidate ⟨"", none, none⟩ [] ps with
    | some (c, seen) => if "candidate" ∈ seen then some c else none
    | none => none
  | _ => none

/-- Deserialize the `completions` field. -/
def candListOfBValList : BValList → Option (List CompletionCandidate)
  | .nil => some []
  | .cons v vs =>
    match candidateOfBVal v, candListOfBValList vs with
    | some c, some cs => some (c :: cs)
    | _, _ => none

/-- Deserialize a `Vec<CompletionCandidate>` field. -/
def candListOfBVal : BVal → Option (List CompletionCandidate)
  | .list vs => candListOfBValList vs
  | _ => none

/-- Entries of a `BTreeMap<String, BencodeValue>` rendered through
`to_string_repr` (`deserialize_aux_map`). -/
def strMapOfPairs (ps : BValPairs) : Option (List (String × String)) :=
  (reprEntries ps).map btreeOfList

/-- Deserialize a `BTreeMap<String, BencodeValue>` field. -/
def strMapOfBVal : BVal → Option (List (String × String))
  | .dict ps => strMapOfPairs ps
  | _ => none

/-- Spine for `deserialize_nested_map`: the outer map's entries. -/
def nestedEntries : BValPairs → Option (List (String × List (String × String)))
  | .nil => some []
  | .cons k v ps =>
    match utf8Decode? k, strMapOfBVal v, nestedEntries ps with
    | some ks, some m, some ms => some ((ks, m) :: ms)
    | _, _, _ => none

/-- Deserialize a `BTreeMap<String, BTreeMap<String, String>>` field
(`deserialize_nested_map`, used for `ops` and `versions`). -/
def nestedMapOfBVal : BVal → Option (List (String × List (String × String)))
  | .dict ps => (nestedEntries ps).map btreeOfList
  | _ => none

/-- `deserialize_info_map`: a dictionary becomes a map, a list (or any
other decodable shape) becomes "no data"; a shape whose string leaves are
not valid UTF-8 is a deserialization error. -/
def infoOfBVal : BVal → Option (Option (List (String × String)))
  | .dict ps => (strMapOfPairs ps).map some
  | v => (toStringRepr v).map fun _ => none

/-- Field names the `Response` struct recognises (serde errors on a
duplicate of any of these; unknown fields are ignored). -/
def knownFields : List String :=
  ["id", "session", "status", "value", "out", "err", "ns", "new-session",
   "sessions", "completions", "ops", "versions", "aux", "info", "middleware",
   "unresolved-middleware"]

/-- Apply one dictionary entry to the partially built `Response`. -/
def applyField (r : Response) (k : String) (v : BVal) : Option Response :=
  if k = "id" then (getStrB v).map fun s => {r with id := s}
  else if k = "session" then (getStrB v).map fun s => {r with session := s}
  else if k = "status" then (strListOfBVal v).map fun ss => {r with status := ss}
  else if k = "value" then (toStringRepr v).map fun s => {r with value := some s}
  else if k = "out" then (getStrB v).map fun s => {r with out := some s}
  else if k = "err" then (getStrB v).map fun s => {r with err := some s}
  else if k = "ns" then (getStrB v).map fun s => {r with ns := some s}
  else if k = "new-session" then (getStrB v).map fun s => {r with new_session := some s}
  else if k = "sessions" then (strListOfBVal v).map fun ss => {r with sessions := some ss}
  else if k = "completions" then
    (candListOfBVal v).map fun cs => {r with completions := some cs}
  else if k = "ops" then (nestedMapOfBVal v).map fun m => {r with ops := some m}
  else if k = "versions" then (nestedMapOfBVal v).map fun m => {r with versions := some m}
  else if k = "aux" then (strMapOfBVal v).map fun m => {r with aux := some m}
  else if k = "info" then (infoOfBVal v).map fun m => {r with info := m}
  else if k = "middleware" then
    (strListOfBVal v).map fun ss => {r with middleware := some ss}
  else if k = "unresolved-middleware" then
    (strListOfBVal v).map fun ss => {r with unresolved_middleware := some ss}
  else some r

/-- Fold all dictionary entries, tracking seen keys for serde's
duplicate-field error. -/
def buildResponse : Response → List String → BValPairs → Option (Response × List String)
  | r, seen, .nil => some (r, seen)
  | r, seen, .cons kb v ps =>
    match utf8Decode? kb with
    | none => none
    | some k =>
      if k ∈ knownFields ∧ k ∈ seen then none
      else
        match applyField r k v with
        | none => none
        | some r' => buildResponse r' (k :: seen) ps

/-- A `Response` from a parsed bencode value: must be a dictionary and
must contain `id`; everything else defaults. -/
def responseOfBVal : BVal → Option Response
  | .dict ps =>
    (match buildResponse (baseResponse "") [] ps with
     | some (r, seen) => if "id" ∈ seen then some r else none
     | none => none)
  | _ => none

/-- `serde_bencode::from_bytes::<Response>`: parse exactly the given
bytes (no leftovers) and map them onto the struct. -/
def parseResponse (bytes : List Nat) : Option Response :=
  match parseVal (2 * bytes.length + 2) bytes with
  | some (v, []) => responseOfBVal v
  | _ => none

/-- `decode_response` (`codec.rs`): find the end of one bencode value,
deserialize exactly that prefix, and return the consumed length.  The
serde error text is not reproduced; only the fact that every
deserialization failure is a `Codec` error matters to the engine. -/
def decode_response (data : List Nat) : Except NReplError (Response × Nat) :=
  match find_bencode_end data 0 with
  | .error e => .error e
  | .ok msg_len =>
    match parseResponse (data.take msg_len) with
    | some resp => .ok (resp, msg_len)
    | none =>
      .error (NReplError.codec_with_preview "deserialization error" 0 (data.take msg_len))

/-! ## Connection engine (`src/connection.rs`) -/

/-- Maximum size for a single response message (10 MB), line 57. -/
def MAX_RESPONSE_SIZE : Nat := 10 * 1024 * 1024

/-- Maximum incomplete read attempts (1000), line 61. -/
def MAX_INCOMPLETE_READS : Nat := 1000

/-- Maximum accumulated output entries (10,000), line 65. -/
def MAX_OUTPUT_ENTRIES : Nat := 10000

/-- Maximum total accumulated output size (10 MB), line 69. -/
def MAX_OUTPUT_TOTAL_SIZE : Nat := 10 * 1024 * 1024

/-- Default eval timeout (60 seconds), line 73. -/
def DEFAULT_EVAL_TIMEOUT : Nat := 60

/-- The mutable state of `NReplClient` apart from the TCP stream itself:
session registry (`HashMap` as an association list), persistent receive
buffer, incomplete-read counter and the timed-out id set. -/
structure NReplClient where
  sessions : List (String × Session)
  buffer : List Nat
  incomplete_read_count : Nat
  timed_out_ids : List String
deriving DecidableEq, Repr

/-- A freshly connected client (`NReplClient::connect`). -/
def emptyClient : NReplClient := ⟨[], [], 0, []⟩

/-- `HashMap::get` on the session registry. -/
def findSession : List (String × Session) → String → Option Session
  | [], _ => none
  | (k', v) :: rest, k => if k' = k then some v else findSession rest k

/-- Drop a key from the registry (`HashMap::remove`). -/
def removeKey : List (String × Session) → String → List (String × Session)
  | [], _ => []
  | (k', v) :: rest, k =>
    if k' = k then removeKey rest k else (k', v) :: removeKey rest k

/-- `HashMap::insert` (replaces an existing binding). -/
def mapInsert (m : List (String × Session)) (k : String) (v : Session) :
    List (String × Session) :=
  removeKey m k ++ [(k, v)]

/-- `HashSet::insert`. -/
def setInsert (s : List String) (x : String) : List String :=
  if x ∈ s then s else s ++ [x]

/-- `HashSet::remove`. -/
def removeId : List String → String → List String
  | [], _ => []
  | y :: rest, x => if y = x then removeId rest x else y :: removeId rest x

/-- Outcome of one decode attempt inside the `read_response` loop:
either the loop is finished (with a response or a fatal error), or more
bytes must be read from the socket. -/
inductive DecodeStep where
  | done (result : Except NReplError Response) (st : NReplClient)
  | more (st : NReplClient)
deriving DecidableEq, Repr

/-- The decode-attempt phase of `NReplClient::read_response`: with a
non-empty buffer try `decode_response`; on success drain exactly the
consumed prefix and reset the incomplete-read counter; on *any* `Codec`
error — truncated or malformed alike — bump the counter and (within the
`MAX_INCOMPLETE_READS` budget) ask for more bytes; a non-`Codec` error
would abort at once (`decode_response` never produces one). -/
def tryDecodeStep (st : NReplClient) : DecodeStep :=
  if st.buffer = [] then .more st
  else
    match decode_response st.buffer with
    | .ok (resp, consumed) =>
      .done (.ok resp)
        { st with buffer := st.buffer.drop consumed, incomplete_read_count := 0 }
    | .error (.Codec _ _ _) =>
      if st.incomplete_read_count + 1 > MAX_INCOMPLETE_READS then
        .done (.error (NReplError.protocol
            ("Too many incomplete reads (" ++ decStr (st.incomplete_read_count + 1)
              ++ " attempts), possible incomplete/malformed message")))
          { st with incomplete_read_count := st.incomplete_read_count + 1 }
      else .more { st with incomplete_read_count := st.incomplete_read_count + 1 }
    | .error e => .done (.error e) st

/-- `NReplClient::read_response`, modelled over the list of byte chunks
the socket will deliver (one list element per `stream.read` result; an
exhausted list, or an empty chunk, is a read returning zero bytes, i.e. a
peer close).  Returns the operation result, the client state after the
call, and the chunks not yet consumed.  Each loop iteration is one
`tryDecodeStep` followed, if needed, by one socket read that enforces
`MAX_RESPONSE_SIZE` *before* appending. -/
def read_response (st : NReplClient) (chunks : List (List Nat)) :
    (Except NReplError Response) × NReplClient × List (List Nat) :=
  match tryDecodeStep st with
  | .done result st' => (result, st', chunks)
  | .more st' =>
    match chunks with
    | [] => (.error (.Connection "connection closed"), st', [])
    | c :: rest =>
      if c = [] then (.error (.Connection "connection closed"), st', rest)
      else if st'.buffer.length + c.length > MAX_RESPONSE_SIZE then
        (.error (NReplError.protocol
            ("Response would exceed maximum size of " ++ decStr MAX_RESPONSE_SIZE
              ++ " bytes (current: " ++ decStr st'.buffer.length ++ ", adding: "
              ++ decStr c.length ++ ")")), st', rest)
      else read_response { st' with buffer := st'.buffer ++ c } rest

/-! ### Request builders (`src/ops.rs`)

`REQUEST_ID_COUNTER` is a `static AtomicUsize` in the source — one
counter for the whole process, *not* one per connection.  The model
therefore threads a single process-wide counter value through every
request builder; `NReplClient` deliberately has no counter field, mirroring
the source. -/

/-- `format!("req-{}", id)`. -/
def mkReqId (counter : Nat) : String := "req-" ++ decStr counter

/-- `next_request_id`: `fetch_add(1)` on the process-wide counter
(initial value 1). -/
def next_request_id (counter : Nat) : String × Nat := (mkReqId counter, counter + 1)

/-- `base_request`. -/
def base_request (op : String) (counter : Nat) : Request × Nat :=
  let (id, c) := next_request_id counter
  (⟨op, id, none, none, none, none, none, none, none, none, none, none, none,
      none, none, none, none, none, none, none⟩, c)

/-- `clone_request`. -/
def clone_request (counter : Nat) : Request × Nat := base_request "clone" counter

/-- `eval_request`. -/
def eval_request (session : String) (code : String) (counter : Nat) : Request × Nat :=
  let (r, c) := base_request "eval" counter
  ({ r with session := some session, code := some code }, c)

/-- `load_file_request`. -/
def load_file_request (session : String) (file_contents : String)
    (file_path file_name : Option String) (counter : Nat) : Request × Nat :=
  let (r, c) := base_request "load-file" counter
  ({ r with
      session := some session,
      file := some file_contents,
      file_path := file_path,
      file_name := file_name }, c)

/-- `close_request`. -/
def close_request (session : String) (counter : Nat) : Request × Nat :=
  let (r, c) := base_request "close" counter
  ({ r with session := some session }, c)

/-- `interrupt_request`. -/
def interrupt_request (session : String) (interrupt_id : String) (counter : Nat) :
    Request × Nat :=
  let (r, c) := base_request "interrupt" counter
  ({ r with session := some session, interrupt_id := some interrupt_id }, c)

/-- `describe_request`. -/
def describe_request (verbose : Option Bool) (counter : Nat) : Request × Nat :=
  let (r, c) := base_request "describe" counter
  ({ r with verbose := verbose }, c)

/-- `ls_sessions_request`. -/
def ls_sessions_request (counter : Nat) : Request × Nat :=
  base_request "ls-sessions" counter

/-- `stdin_request`. -/
def stdin_request (session : String) (stdin_data : String) (counter : Nat) :
    Request × Nat :=
  let (r, c) := base_request "stdin" counter
  ({ r with session := some session, stdin := some stdin_data }, c)

/-- `completions_request` (the source's `prefix` argument is `prefixStr`
here). -/
def completions_request (session : String) (prefixStr : String)
    (ns complete_fn : Option String) (counter : Nat) : Request × Nat :=
  let (r, c) := base_request "completions" counter
  ({ r with
      session := some session,
      prefixStr := some prefixStr,
      ns := ns,
      complete_fn := complete_fn }, c)

/-- `lookup_request`. -/
def lookup_request (session : String) (sym : String)
    (ns lookup_fn : Option String) (counter : Nat) : Request × Nat :=
  let (r, c) := base_request "lookup" counter
  ({ r with
      session := some session,
      sym := some sym,
      ns := ns,
      lookup_fn := lookup_fn }, c)

/-- `ls_middleware_request`. -/
def ls_middleware_request (counter : Nat) : Request × Nat :=
  base_request "ls-middleware" counter

/-- `add_middleware_request`. -/
def add_middleware_request (middleware : List String)
    (extra_namespaces : Option (List String)) (counter : Nat) : Request × Nat :=
  let (r, c) := base_request "add-middleware" counter
  ({ r with middleware := some middleware, extra_namespaces := extra_namespaces }, c)

/-- `swap_middleware_request`. -/
def swap_middleware_request (middleware : List String)
    (extra_namespaces : Option (List String)) (counter : Nat) : Request × Nat :=
  let (r, c) := base_request "swap-middleware" counter
  ({ r with middleware := some middleware, extra_namespaces := extra_namespaces }, c)

/-! ### Operations

The operations below are modelled over the stream of *decoded* responses
(`World.incoming`): each entry is one `Response` as `read_response` would
successively yield it.  `World.sent` records each request whose encoded
bytes (`encode_request`) are written to the socket, in write order.
Timeout expiry is a nondeterministic environment choice and enters as the
`expired` argument of every timeout-wrapped operation; on expiry the
model applies exactly the effects of the source's `Err(_) =>` timeout arm
(cancellation cuts the inner future before any of its own effects are
kept). -/

/-- Process + connection state for the operation layer. -/
structure World where
  client : NReplClient
  counter : Nat
  incoming : List Response
  sent : List Request
deriving DecidableEq, Repr

/-- Write one encoded request to the socket (`write_all` + `flush`). -/
def sendReq (request : Request) (w : World) : World :=
  { w with sent := w.sent ++ [request] }

/-- Stand-in for `format!("{:?}", response)` in diagnostic text. -/
def responseDebug (r : Response) : String := "Response(id = " ++ r.id ++ ")"

/-- `validate_session`: the client-side registry check. -/
def validate_session (c : NReplClient) (session : Session) : Except NReplError Unit :=
  if findSession c.sessions session.id = none then
    .error (.SessionNotFound session.id)
  else .ok ()

/-- `send_request`: encode, write, then return whatever response is read
next — the source performs no id check here. -/
def send_request (request : Request) (w : World) :
    (Except NReplError Response) × World :=
  let w := sendReq request w
  match w.incoming with
  | [] => (.error (.Connection "connection closed"), w)
  | r :: rest => (.ok r, { w with incoming := rest })

/-- The `out` arm of the accumulation loop, with both backpressure caps. -/
def foldOut (acc : EvalResult) (total : Nat) : Option String →
    Except NReplError (EvalResult × Nat)
  | none => .ok (acc, total)
  | some out =>
    if acc.output.length ≥ MAX_OUTPUT_ENTRIES then
      .error (NReplError.protocol
        ("Output exceeded maximum entries limit (" ++ decStr MAX_OUTPUT_ENTRIES
          ++ " entries)"))
    else if total + (strBytes out).length > MAX_OUTPUT_TOTAL_SIZE then
      .error (NReplError.protocol
        ("Output exceeded maximum total size of " ++ decStr MAX_OUTPUT_TOTAL_SIZE
          ++ " bytes (" ++ decStr (MAX_OUTPUT_TOTAL_SIZE / (1024 * 1024)) ++ " MB)"))
    else .ok ({ acc with output := acc.output ++ [out] }, total + (strBytes out).length)

/-- The `err` arm of the accumulation loop. -/
def foldErr (acc : EvalResult) (total : Nat) : Option String →
    Except NReplError (EvalResult × Nat)
  | none => .ok (acc, total)
  | some err =>
    if acc.error.length ≥ MAX_OUTPUT_ENTRIES then
      .error (NReplError.protocol
        ("Error output exceeded maximum entries limit (" ++ decStr MAX_OUTPUT_ENTRIES
          ++ " entries)"))
    else if total + (strBytes err).length > MAX_OUTPUT_TOTAL_SIZE then
      .error (NReplError.protocol
        ("Error output exceeded maximum total size of "
          ++ decStr MAX_OUTPUT_TOTAL_SIZE ++ " bytes ("
          ++ decStr (MAX_OUTPUT_TOTAL_SIZE / (1024 * 1024)) ++ " MB)"))
    else .ok ({ acc with error := acc.error ++ [err] }, total + (strBytes err).length)

/-- The response-consuming loop of `send_and_accumulate_responses`:
discard (and forget) responses for timed-out ids, skip other mismatched
ids, fold `out`/`err` under the caps, overwrite `value`/`ns`, stop on
`done`.  Returns the result, the timed-out set after the loop, and the
unconsumed responses. -/
def accumLoop (request : Request) (acc : EvalResult) (total : Nat)
    (tids : List String) :
    List Response → (Except NReplError EvalResult) × List String × List Response
  | [] => (.error (.Connection "connection closed"), tids, [])
  | r :: rest =>
    if r.id ∈ tids then accumLoop request acc total (removeId tids r.id) rest
    else if r.id ≠ request.id then accumLoop request acc total tids rest
    else
      match foldOut acc total r.out with
      | .error e => (.error e, tids, rest)
      | .ok (acc1, total1) =>
        match foldErr acc1 total1 r.err with
        | .error e => (.error e, tids, rest)
        | .ok (acc2, total2) =>
          let acc3 := match r.value with
            | some v => { acc2 with value := some v }
            | none => acc2
          let acc4 := match r.ns with
            | some n => { acc3 with ns := some n }
            | none => acc3
          if r.status.any fun s => s = "done" then (.ok acc4, tids, rest)
          else accumLoop request acc4 total2 tids rest

/-- `send_and_accumulate_responses` (used by eval and load-file). -/
def send_and_accumulate_responses (request : Request) (operation : String)
    (w : World) : (Except NReplError EvalResult) × World :=
  let _ := operation
  let w := sendReq request w
  match accumLoop request EvalResult.new 0 w.client.timed_out_ids w.incoming with
  | (res, tids, rest) =>
    (res, { w with client := { w.client with timed_out_ids := tids }, incoming := rest })

/-- `clone_session`: request id drawn before the timeout race; on expiry
the id is *not* recorded in `timed_out_ids` (the source's timeout arm
only builds the error). -/
def clone_session (expired : Bool) (w : World) : (Except NReplError Session) × World :=
  let (request, c) := clone_request w.counter
  let w := { w with counter := c }
  if expired then (.error (.Timeout "clone_session" 30), w)
  else
    match send_request request w with
    | (.error e, w') => (.error e, w')
    | (.ok response, w') =>
      match response.new_session with
      | none =>
        (.error (NReplError.protocol_with_response
          "Missing new-session in clone response" (responseDebug response)), w')
      | some session_id =>
        (.ok ⟨session_id⟩,
          { w' with client := { w'.client with
              sessions := mapInsert w'.client.sessions session_id ⟨session_id⟩ } })

/-- `eval_with_timeout`: validate, build the request (advancing the
counter) so the id is known, then race the timeout; on expiry the id *is*
inserted into `timed_out_ids`. -/
def eval_with_timeout (session : Session) (code : String) (timeout_duration : Nat)
    (expired : Bool) (w : World) : (Except NReplError EvalResult) × World :=
  match validate_session w.client session with
  | .error e => (.error e, w)
  | .ok () =>
    let (request, c) := eval_request session.id code w.counter
    let w := { w with counter := c }
    if expired then
      (.error (.Timeout "eval" timeout_duration),
        { w with client := { w.client with
            timed_out_ids := setInsert w.client.timed_out_ids request.id } })
    else send_and_accumulate_responses request "eval" w

/-- `eval`: `eval_with_timeout` at the 60-second default. -/
def eval (session : Session) (code : String) (expired : Bool) (w : World) :
    (Except NReplError EvalResult) × World :=
  eval_with_timeout session code DEFAULT_EVAL_TIMEOUT expired w

/-- `load_file` (no timeout wrapper in the source). -/
def load_file (session : Session) (file_contents : String)
    (file_path file_name : Option String) (w : World) :
    (Except NReplError EvalResult) × World :=
  match validate_session w.client session with
  | .error e => (.error e, w)
  | .ok () =>
    let (request, c) :=
      load_file_request session.id file_contents file_path file_name w.counter
    send_and_accumulate_responses request "load-file" { w with counter := c }

/-- The response loop of `interrupt_impl`: skip mismatched ids, fail on
`err`, succeed on `done`. -/
def interruptLoop (reqId : String) :
    List Response → (Except NReplError Unit) × List Response
  | [] => (.error (.Connection "connection closed"), [])
  | r :: rest =>
    if r.id ≠ reqId then interruptLoop reqId rest
    else
      match r.err with
      | some e => (.error (.OperationFailed ("Interrupt failed: " ++ e)), rest)
      | none =>
        if r.status.any fun s => s = "done" then (.ok (), rest)
        else interruptLoop reqId rest

/-- `interrupt`: validate, then race `interrupt_impl` against a
10-second deadline; on expiry nothing further happens (the inner future
is cancelled, no timed-out id is recorded). -/
def interrupt (session : Session) (interrupt_id : String) (expired : Bool)
    (w : World) : (Except NReplError Unit) × World :=
  match validate_session w.client session with
  | .error e => (.error e, w)
  | .ok () =>
    if expired then (.error (.Timeout "interrupt" 10), w)
    else
      let (request, c) := interrupt_request session.id interrupt_id w.counter
      let w := sendReq request { w with counter := c }
      match interruptLoop request.id w.incoming with
      | (res, rest) => (res, { w with incoming := rest })

/-- The response loop of `close_session_impl`. -/
def closeLoop (reqId : String) :
    List Response → (Except NReplError Unit) × List Response
  | [] => (.error (.Connection "connection closed"), [])
  | r :: rest =>
    if r.id ≠ reqId then closeLoop reqId rest
    else
      match r.err with
      | some e => (.error (.OperationFailed ("Close session failed: " ++ e)), rest)
      | none =>
        if r.status.any fun s => s = "done" then (.ok (), rest)
        else closeLoop reqId rest

/-- `close_session`: note the *absence* of a `validate_session` call —
the close request is sent whether or not the session is tracked; the
registry entry is removed only on success. -/
def close_session (session : Session) (expired : Bool) (w : World) :
    (Except NReplError Unit) × World :=
  if expired then (.error (.Timeout "close_session" 10), w)
  else
    let (request, c) := close_request session.id w.counter
    let w := sendReq request { w with counter := c }
    match closeLoop request.id w.incoming with
    | (.ok (), rest) =>
      (.ok (), { w with
          incoming := rest,
          client := { w.client with
            sessions := removeKey w.client.sessions session.id } })
    | (.error e, rest) => (.error e, { w with incoming := rest })

/-- `describe`. -/
def describe (verbose : Bool) (w : World) : (Except NReplError Response) × World :=
  let (request, c) := describe_request (some verbose) w.counter
  send_request request { w with counter := c }

/-- `ls_sessions`. -/
def ls_sessions (w : World) : (Except NReplError (List String)) × World :=
  let (request, c) := ls_sessions_request w.counter
  match send_request request { w with counter := c } with
  | (.ok response, w') => (.ok (response.sessions.getD []), w')
  | (.error e, w') => (.error e, w')

/-- `stdin`: validate, send — and return without reading any response. -/
def stdin (session : Session) (data : String) (w : World) :
    (Except NReplError Unit) × World :=
  match validate_session w.client session with
  | .error e => (.error e, w)
  | .ok () =>
    let (request, c) := stdin_request session.id data w.counter
    (.ok (), sendReq request { w with counter := c })

/-- `completions`: first response read, `completions` field defaulted. -/
def completions (session : Session) (prefixStr : String)
    (ns complete_fn : Option String) (w : World) :
    (Except NReplError (List CompletionCandidate)) × World :=
  match validate_session w.client session with
  | .error e => (.error e, w)
  | .ok () =>
    let (request, c) := completions_request session.id prefixStr ns complete_fn w.counter
    match send_request request { w with counter := c } with
    | (.ok response, w') => (.ok (response.completions.getD []), w')
    | (.error e, w') => (.error e, w')

/-- `lookup`: first response read, returned whole. -/
def lookup (session : Session) (sym : String) (ns lookup_fn : Option String)
    (w : World) : (Except NReplError Response) × World :=
  match validate_session w.client session with
  | .error e => (.error e, w)
  | .ok () =>
    let (request, c) := lookup_request session.id sym ns lookup_fn w.counter
    send_request request { w with counter := c }

/-- `ls_middleware`. -/
def ls_middleware (w : World) : (Except NReplError (List String)) × World :=
  let (request, c) := ls_middleware_request w.counter
  match send_request request { w with counter := c } with
  | (.ok response, w') => (.ok (response.middleware.getD []), w')
  | (.error e, w') => (.error e, w')

/-- `add_middleware`. -/
def add_middleware (middleware : List String)
    (extra_namespaces : Option (List String)) (w : World) :
    (Except NReplError Response) × World :=
  let (request, c) := add_middleware_request middleware extra_namespaces w.counter
  send_request request { w with counter := c }

/-- `swap_middleware`. -/
def swap_middleware (middleware : List String)
    (extra_namespaces : Option (List String)) (w : World) :
    (Except NReplError Response) × World :=
  let (request, c) := swap_middleware_request middleware extra_namespaces w.counter
  send_request request { w with counter := c }

/-- Pointwise agreement: `data` holds the bytes of `xs` starting at
offset `start` (what remains of a buffer slice once positions are kept
absolute). -/
def Agrees (data : List Nat) (start : Nat) (xs : List Nat) : Prop :=
  ∀ i, i < xs.length → data.getD (start + i) 0 = xs.getD i 0

/-- "Well-formed" request, as §8 of the specification presupposes: every
string payload (and every dictionary key) of its wire form stays within
the codec's 100 MB string cap, and the whole encoding is indexable by
`usize`. -/
def Request.wellFormed (r : Request) : Prop :=
  bvalWF (requestToBVal r) = true ∧ (encode_request r).length < USIZE_SIZE

/-! ## Lemmas: decimal rendering -/

theorem natDecAux_eq_digits : ∀ fuel n, n ≤ fuel → natDecAux fuel n = Nat.digits 10 n
  | 0, 0, _ => by simp [natDecAux]
  | 0, n + 1, h => absurd h (by omega)
  | fuel + 1, n, h => by
    by_cases h0 : n = 0
    · simp [natDecAux, h0]
    · have hdiv : n / 10 ≤ fuel := by
        have : n / 10 < n := Nat.div_lt_self (Nat.pos_of_ne_zero h0) (by norm_num)
        omega
      rw [natDecAux, if_neg h0, natDecAux_eq_digits fuel (n / 10) hdiv,
        Nat.digits_def' (by norm_num : (1 : ℕ) < 10) (Nat.pos_of_ne_zero h0)]

theorem natDecDigits_mem_bounds {n b : Nat} (hb : b ∈ natDecDigits n) :
    48 ≤ b ∧ b ≤ 57 := by
  unfold natDecDigits at hb
  by_cases h0 : n = 0
  · simp [h0] at hb
    omega
  · rw [if_neg h0, natDecAux_eq_digits n n le_rfl] at hb
    rw [List.mem_reverse, List.mem_map] at hb
    obtain ⟨d, hd, rfl⟩ := hb
    have := Nat.digits_lt_base (by norm_num) hd
    omega

theorem natDecDigits_ne_nil (n : Nat) : natDecDigits n ≠ [] := by
  unfold natDecDigits
  by_cases h0 : n = 0
  · simp [h0]
  · rw [if_neg h0, natDecAux_eq_digits n n le_rfl]
    simp [Nat.digits_ne_nil_iff_ne_zero, h0]

theorem foldlDec_reverse :
    ∀ (L : List Nat) (a : Nat),
      (L.reverse).foldl (fun acc d => acc * 10 + d) a =
        a * 10 ^ L.length + Nat.ofDigits 10 L := by
  intro L
  induction L with
  | nil => intro a; simp
  | cons d L ih =>
    intro a
    rw [List.reverse_cons, List.foldl_append, ih, List.foldl_cons, List.foldl_nil,
      Nat.ofDigits_cons, List.length_cons, pow_succ]
    ring

theorem digitsVal_natDecDigits (n : Nat) : digitsVal (natDecDigits n) = n := by
  unfold digitsVal natDecDigits
  by_cases h0 : n = 0
  · simp [h0]
  · rw [if_neg h0, natDecAux_eq_digits n n le_rfl, ← List.map_reverse, List.foldl_map]
    simp only [Nat.add_sub_cancel]
    have hrev := foldlDec_reverse (Nat.digits 10 n) 0
    simp only [Nat.zero_mul, Nat.zero_add] at hrev
    rw [hrev, Nat.ofDigits_digits]

theorem char_digit_roundtrip {b : Nat} (h1 : 48 ≤ b) (h2 : b ≤ 57) :
    (Char.ofNat b).toNat = b := by
  interval_cases b <;> decide

theorem decStr_inj {a b : Nat} (h : decStr a = decStr b) : a = b := by
  have hdata : (natDecDigits a).map Char.ofNat = (natDecDigits b).map Char.ofNat :=
    congrArg String.data h
  have hmap : ∀ ds : List Nat, (∀ x ∈ ds, 48 ≤ x ∧ x ≤ 57) →
      (ds.map Char.ofNat).map Char.toNat = ds := by
    intro ds hds
    induction ds with
    | nil => rfl
    | cons x ds ih =>
      have hx := hds x (by simp)
      simp only [List.map_cons, List.cons.injEq]
      exact ⟨char_digit_roundtrip hx.1 hx.2, ih fun y hy => hds y (by simp [hy])⟩
  have ha := hmap (natDecDigits a) fun x hx => natDecDigits_mem_bounds hx
  have hb := hmap (natDecDigits b) fun x hx => natDecDigits_mem_bounds hx
  have : natDecDigits a = natDecDigits b := by
    rw [← ha, ← hb, hdata]
  have := congrArg digitsVal this
  rwa [digitsVal_natDecDigits, digitsVal_natDecDigits] at this

theorem mkReqId_inj {a b : Nat} (h : mkReqId a = mkReqId b) : a = b := by
  unfold mkReqId at h
  have hdata := congrArg String.data h
  rw [String.data_append, String.data_append] at hdata
  exact decStr_inj (String.ext (List.append_cancel_left hdata))

/-! ## Lemmas: scan loops and buffer segments -/

theorem getD_lt_length_of_ne_default {data : List Nat} {i : Nat}
    (h : data.getD i 0 ≠ 0) : i < data.length := by
  by_contra hge
  rw [List.getD_eq_default _ _ (by omega)] at h
  exact h rfl

theorem scanFor_spec {target : Nat} (htz : target ≠ 0) :
    ∀ (k fuel start : Nat) (data : List Nat),
      (∀ i, i < k → data.getD (start + i) 0 ≠ target) →
      data.getD (start + k) 0 = target →
      k ≤ fuel →
      scanFor target fuel data start = start + k := by
  intro k
  induction k with
  | zero =>
    intro fuel start data _ hfound _
    simp only [Nat.add_zero] at hfound
    have hin : start < data.length := by
      apply getD_lt_length_of_ne_default
      rw [hfound]; exact htz
    match fuel with
    | 0 => rw [scanFor]; omega
    | fuel + 1 =>
      rw [scanFor, if_pos hin, if_pos hfound]; omega
  | succ k ih =>
    intro fuel start data hmiss hfound hfuel
    have hin : start < data.length := by
      have : start + (k + 1) < data.length := by
        apply getD_lt_length_of_ne_default
        rw [hfound]; exact htz
      omega
    match fuel with
    | 0 => omega
    | fuel + 1 =>
      have h0 : ¬ (data.getD start 0 = target) := by
        have := hmiss 0 (by omega)
        simpa using this
      rw [scanFor, if_pos hin, if_neg h0]
      have hrec := ih fuel (start + 1) data
        (fun i hi => by
          have := hmiss (i + 1) (by omega)
          have harith : start + 1 + i = start + (i + 1) := by omega
          rwa [harith])
        (by
          have harith : start + 1 + k = start + (k + 1) := by omega
          rw [harith]; exact hfound)
        (by omega)
      rw [hrec]
      omega

theorem Agrees.extract {data : List Nat} {start : Nat} {xs : List Nat}
    (h : Agrees data start xs) (hlen : start + xs.length ≤ data.length) :
    (data.drop start).take xs.length = xs := by
  apply List.ext_getElem
  · simp; omega
  · intro i h1 h2
    have hi : i < xs.length := h2
    have hgd := h i hi
    rw [List.getElem_take, List.getElem_drop]
    rw [List.getD_eq_getElem _ _ (by omega), List.getD_eq_getElem _ _ hi] at hgd
    exact hgd

theorem utf8DecodeChars_ascii :
    ∀ (bs : List Nat) (fuel : Nat), (∀ b ∈ bs, b ≤ 0x7F) → bs.length < fuel →
      (utf8DecodeChars fuel bs).isSome := by
  intro bs
  induction bs with
  | nil =>
    intro fuel _ _
    cases fuel <;> rfl
  | cons b rest ih =>
    intro fuel h hfuel
    obtain ⟨f, rfl⟩ : ∃ f, fuel = f + 1 := ⟨fuel - 1, by omega⟩
    have hb : b ≤ 0x7F := h b (List.mem_cons_self b rest)
    have hrest := ih f (fun x hx => h x (List.mem_cons_of_mem b hx))
      (by simp at hfuel; omega)
    rw [utf8DecodeChars, if_pos hb]
    cases hdec : utf8DecodeChars f rest with
    | none => rw [hdec] at hrest; simp at hrest
    | some cs => rfl

theorem utf8Decode?_ascii {bs : List Nat} (h : ∀ b ∈ bs, b ≤ 0x7F) :
    (utf8Decode? bs).isSome := by
  unfold utf8Decode?
  have := utf8DecodeChars_ascii bs (2 * bs.length + 2) h (by omega)
  cases hdec : utf8DecodeChars (2 * bs.length + 2) bs with
  | none => rw [hdec] at this; simp at this
  | some cs => rfl

/-! ## Lemmas: the scanner's string case (C8) -/

theorem Agrees.left {data : List Nat} {start : Nat} {xs ys : List Nat}
    (h : Agrees data start (xs ++ ys)) : Agrees data start xs := by
  intro i hi
  have := h i (by simp; omega)
  rwa [List.getD_append _ _ _ _ hi] at this

theorem Agrees.right {data : List Nat} {start : Nat} {xs ys : List Nat}
    (h : Agrees data start (xs ++ ys)) : Agrees data (start + xs.length) ys := by
  intro i hi
  have := h (xs.length + i) (by simp; omega)
  rw [List.getD_append_right _ _ _ _ (by omega)] at this
  simp only [Nat.add_sub_cancel_left] at this
  rwa [← Nat.add_assoc] at this

/-- Everything the digit branch needs: with an all-digit run `ds` followed
by `:` at `start`, the scanner dispatches to `fbeString`, the colon scan
stops exactly after `ds`, and the collected length string is `ds`. -/
theorem scanner_digit_case {data : List Nat} {start : Nat} {ds : List Nat}
    (hAg : Agrees data start (ds ++ [58])) (hne : ds ≠ [])
    (hdig : ∀ b ∈ ds, 48 ≤ b ∧ b ≤ 57) :
    find_bencode_end data start = fbeString data start ∧
    scanToColon data start = start + ds.length ∧
    (data.drop start).take ds.length = ds ∧
    start + ds.length < data.length := by
  have hcolon_byte : data.getD (start + ds.length) 0 = 58 := by
    have := hAg ds.length (by simp)
    rwa [List.getD_append_right _ _ _ _ le_rfl, Nat.sub_self] at this
  have hcolon_in : start + ds.length < data.length :=
    getD_lt_length_of_ne_default (by rw [hcolon_byte]; omega)
  have hstart_lt : start < data.length := by omega
  obtain ⟨d, ds', rfl⟩ : ∃ d ds', ds = d :: ds' := by
    cases ds with
    | nil => exact absurd rfl hne
    | cons d ds' => exact ⟨d, ds', rfl⟩
  have hd : 48 ≤ d ∧ d ≤ 57 := hdig d (List.mem_cons_self d ds')
  have hb0 : data.getD start 0 = d := by
    have := hAg 0 (by simp)
    rwa [List.getD_append _ _ _ _ (by simp), Nat.add_zero] at this
  have hmiss : ∀ i, i < (d :: ds').length → data.getD (start + i) 0 ≠ 58 := by
    intro i hi
    have hlen1 : ((d :: ds') ++ [58]).length = (d :: ds').length + 1 := by simp
    have := hAg i (by omega)
    rw [List.getD_append _ _ _ _ hi] at this
    rw [this]
    have hmem : (d :: ds').getD i 0 ∈ d :: ds' := by
      rw [List.getD_eq_getElem _ _ hi]
      exact List.getElem_mem hi
    have := hdig _ hmem
    omega
  have hcolon : scanToColon data start = start + (d :: ds').length := by
    unfold scanToColon
    exact scanFor_spec (by omega) (d :: ds').length (data.length - start) start data
      hmiss hcolon_byte (by omega)
  have hextract : (data.drop start).take (d :: ds').length = d :: ds' :=
    Agrees.left hAg |>.extract (by omega)
  refine ⟨?_, hcolon, hextract, hcolon_in⟩
  have hfuel : 2 * data.length + 2 = (2 * data.length + 1) + 1 := rfl
  rw [find_bencode_end, hfuel, fbeVal, if_pos hstart_lt, hb0]
  rw [if_neg (by omega), if_neg (by omega), if_neg (by omega),
    if_pos (by simp [isDigitByte]; omega)]
  rfl

/-- C8: whenever the scanner meets a string value — an all-digit run `ds`
with parsed length `L = digitsVal ds` followed by `:` — each guard of the
string case fires as specified, for *every* surrounding buffer: a length
above `MAX_STRING_LENGTH` is a codec error raised before the payload
bytes influence anything (the conclusion does not depend on them); the
`pos + L` computation is overflow-checked and fails cleanly; a payload
extending past the buffer end is the recoverable "Incomplete string
data" codec error — never a successful scan, never out-of-bounds access.
(A length too large even for `usize` fails already in `parse`, also with
a codec error.) -/
theorem c8_string_scan_guards {data : List Nat} {start : Nat} {ds : List Nat}
    (hAg : Agrees data start (ds ++ [58])) (hne : ds ≠ [])
    (hdig : ∀ b ∈ ds, 48 ≤ b ∧ b ≤ 57) :
    (USIZE_SIZE ≤ digitsVal ds →
      find_bencode_end data start =
        .error (NReplError.codec "Invalid string length value" (start + ds.length + 1))) ∧
    (MAX_STRING_LENGTH < digitsVal ds → digitsVal ds < USIZE_SIZE →
      find_bencode_end data start =
        .error (NReplError.codec
          ("String length " ++ decStr (digitsVal ds)
            ++ " exceeds maximum allowed size of " ++ decStr MAX_STRING_LENGTH
            ++ " bytes (" ++ decStr (MAX_STRING_LENGTH / (1024 * 1024)) ++ " MB)")
          (start + ds.length + 1))) ∧
    (digitsVal ds ≤ MAX_STRING_LENGTH →
      USIZE_SIZE ≤ start + ds.length + 1 + digitsVal ds →
      find_bencode_end data start =
        .error (NReplError.codec
          ("String length " ++ decStr (digitsVal ds)
            ++ " would cause integer overflow at position "
            ++ decStr (start + ds.length + 1))
          (start + ds.length + 1))) ∧
    (digitsVal ds ≤ MAX_STRING_LENGTH →
      start + ds.length + 1 + digitsVal ds < USIZE_SIZE →
      data.length < start + ds.length + 1 + digitsVal ds →
      find_bencode_end data start =
        .error (NReplError.codec_with_preview
          ("Incomplete string data: claims length " ++ decStr (digitsVal ds)
            ++ " but only " ++ decStr (data.length - (start + ds.length + 1))
            ++ " bytes available")
          (start + ds.length + 1) data)) := by
  obtain ⟨hfind, hcolon, hextract, hin⟩ := scanner_digit_case hAg hne hdig
  have hutf : (utf8Decode? ds).isSome = true :=
    utf8Decode?_ascii fun b hb => by have := hdig b hb; omega
  have hall : ds.all isDigitByte = true := by
    rw [List.all_eq_true]
    intro b hb
    have := hdig b hb
    simp [isDigitByte]
    omega
  have hred : find_bencode_end data start =
      (if (utf8Decode? ds).isSome then
        match parseUsize? ds with
        | none =>
          .error (NReplError.codec "Invalid string length value" (start + ds.length + 1))
        | some len =>
          if len > MAX_STRING_LENGTH then
            .error (NReplError.codec
              ("String length " ++ decStr len ++ " exceeds maximum allowed size of "
                ++ decStr MAX_STRING_LENGTH ++ " bytes ("
                ++ decStr (MAX_STRING_LENGTH / (1024 * 1024)) ++ " MB)")
              (start + ds.length + 1))
          else if USIZE_SIZE ≤ start + ds.length + 1 + len then
            .error (NReplError.codec
              ("String length " ++ decStr len
                ++ " would cause integer overflow at position "
                ++ decStr (start + ds.length + 1))
              (start + ds.length + 1))
          else if start + ds.length + 1 + len > data.length then
            .error (NReplError.codec_with_preview
              ("Incomplete string data: claims length " ++ decStr len
                ++ " but only " ++ decStr (data.length - (start + ds.length + 1))
                ++ " bytes available")
              (start + ds.length + 1) data)
          else .ok (start + ds.length + 1 + len)
      else .error (NReplError.codec "Invalid string length encoding" (start + ds.length + 1))) := by
    rw [hfind]
    unfold fbeString
    rw [hcolon]
    simp only [Nat.add_sub_cancel_left]
    rw [hextract, if_pos hin]
  have hMU : MAX_STRING_LENGTH < USIZE_SIZE := by norm_num [MAX_STRING_LENGTH, USIZE_SIZE]
  refine ⟨?_, ?_, ?_, ?_⟩
  · intro hbig
    have hnone : parseUsize? ds = none := by
      unfold parseUsize?
      rw [if_neg]
      intro ⟨_, _, hlt⟩
      omega
    rw [hred, if_pos hutf]
    split
    · rfl
    · rename_i len heq
      rw [hnone] at heq
      cases heq
  · intro hmax hfit
    have hsome : parseUsize? ds = some (digitsVal ds) := by
      unfold parseUsize?
      rw [if_pos ⟨hne, hall, hfit⟩]
    rw [hred, if_pos hutf]
    split
    · rename_i heq
      rw [hsome] at heq
      cases heq
    · rename_i len heq
      rw [hsome] at heq
      injection heq with hlen'
      subst hlen'
      rw [if_pos (by omega : digitsVal ds > MAX_STRING_LENGTH)]
  · intro hlen hovf
    have hsome : parseUsize? ds = some (digitsVal ds) := by
      unfold parseUsize?
      rw [if_pos ⟨hne, hall, by omega⟩]
    rw [hred, if_pos hutf]
    split
    · rename_i heq
      rw [hsome] at heq
      cases heq
    · rename_i len heq
      rw [hsome] at heq
      injection heq with hlen'
      subst hlen'
      rw [if_neg (by omega), if_pos hovf]
  · intro hlen hfit htrunc
    have hsome : parseUsize? ds = some (digitsVal ds) := by
      unfold parseUsize?
      rw [if_pos ⟨hne, hall, by omega⟩]
    rw [hred, if_pos hutf]
    split
    · rename_i heq
      rw [hsome] at heq
      cases heq
    · rename_i len heq
      rw [hsome] at heq
      injection heq with hlen'
      subst hlen'
      rw [if_neg (by omega), if_neg (by omega), if_pos (by omega)]

/-- Witness for C8: a length prefix of 104857601 (one over the 100 MB
cap) is rejected at the colon with the max-size codec error, and a
3-byte claim over a 2-byte remainder is the recoverable incomplete
error. -/
theorem c8_string_scan_guards_witness :
    find_bencode_end (strBytes "104857601:") 0 =
      .error (NReplError.codec
        ("String length " ++ decStr (digitsVal (strBytes "104857601"))
          ++ " exceeds maximum allowed size of " ++ decStr MAX_STRING_LENGTH
          ++ " bytes (" ++ decStr (MAX_STRING_LENGTH / (1024 * 1024)) ++ " MB)") 10) ∧
    find_bencode_end (strBytes "3:ab") 0 =
      .error (NReplError.codec_with_preview
        ("Incomplete string data: claims length " ++ decStr (digitsVal (strBytes "3"))
          ++ " but only " ++ decStr 2 ++ " bytes available") 2 (strBytes "3:ab")) := by
  constructor
  · have h := (@c8_string_scan_guards (strBytes "104857601:") 0
      (strBytes "104857601")
      (by unfold Agrees; decide) (by decide) (by decide)).2.1 (by decide) (by decide)
    simpa using h
  · have h := (@c8_string_scan_guards (strBytes "3:ab") 0 (strBytes "3")
      (by unfold Agrees; decide) (by decide) (by decide)).2.2.2 (by decide) (by decide)
      (by decide)
    simpa using h

/-! ## Lemmas: encode/scan round trip (C9) -/

theorem natDecDigits_head_digit (n : Nat) :
    48 ≤ (natDecDigits n).getD 0 0 ∧ (natDecDigits n).getD 0 0 ≤ 57 := by
  cases hds : natDecDigits n with
  | nil => exact absurd hds (natDecDigits_ne_nil n)
  | cons d ds =>
    have : d ∈ natDecDigits n := by rw [hds]; exact List.mem_cons_self d ds
    simpa using natDecDigits_mem_bounds this

theorem encStrBytes_length (bs : List Nat) :
    (encStrBytes bs).length = (natDecDigits bs.length).length + 1 + bs.length := by
  simp [encStrBytes]
  omega

theorem encStrBytes_head (bs : List Nat) :
    48 ≤ (encStrBytes bs).getD 0 0 ∧ (encStrBytes bs).getD 0 0 ≤ 57 := by
  unfold encStrBytes
  cases hds : natDecDigits bs.length with
  | nil => exact absurd hds (natDecDigits_ne_nil bs.length)
  | cons d ds =>
    have hmem : d ∈ natDecDigits bs.length := by rw [hds]; exact List.mem_cons_self d ds
    have := natDecDigits_mem_bounds hmem
    simpa using this

theorem intDecBytes_mem {i : Int} {b : Nat} (hb : b ∈ intDecBytes i) :
    b = 45 ∨ (48 ≤ b ∧ b ≤ 57) := by
  unfold intDecBytes at hb
  by_cases hneg : i < 0
  · rw [if_pos hneg] at hb
    rcases List.mem_cons.mp hb with h | h
    · exact Or.inl h
    · exact Or.inr (natDecDigits_mem_bounds h)
  · rw [if_neg hneg] at hb
    exact Or.inr (natDecDigits_mem_bounds hb)

theorem Agrees.cons_head {data : List Nat} {start b : Nat} {t : List Nat}
    (h : Agrees data start (b :: t)) : data.getD start 0 = b := by
  have := h 0 (by simp)
  simpa using this

theorem Agrees.cons_tail {data : List Nat} {start b : Nat} {t : List Nat}
    (h : Agrees data start (b :: t)) : Agrees data (start + 1) t := by
  have h' : Agrees data start ([b] ++ t) := h
  simpa using h'.right

/-- With at least one unit of fuel and a digit byte at `start`, the
scanner takes the string branch. -/
theorem fbeVal_digit_dispatch {data : List Nat} {start fuel : Nat}
    (hfuel : 1 ≤ fuel) (hlt : start < data.length)
    (hdig : 48 ≤ data.getD start 0 ∧ data.getD start 0 ≤ 57) :
    fbeVal fuel data start = some (fbeString data start) := by
  obtain ⟨f, rfl⟩ : ∃ f, fuel = f + 1 := ⟨fuel - 1, by omega⟩
  have hdig' : 48 ≤ data[start]?.getD 0 ∧ data[start]?.getD 0 ≤ 57 := by
    rw [← List.getD_eq_getElem?_getD]
    exact hdig
  rw [fbeVal, if_pos hlt, if_neg (by omega), if_neg (by omega), if_neg (by omega),
    if_pos (by simp [isDigitByte]; omega)]

/-- The success case of the string branch: a digit run `ds` encoding `L`,
the colon, and at least `L` more buffer bytes scan to `start + |ds| + 1 + L`. -/
theorem fbeString_ok {data : List Nat} {start : Nat} {ds : List Nat} {L : Nat}
    (hAg : Agrees data start (ds ++ [58])) (hne : ds ≠ [])
    (hdig : ∀ b ∈ ds, 48 ≤ b ∧ b ≤ 57)
    (hval : digitsVal ds = L) (hL : L ≤ MAX_STRING_LENGTH)
    (hfit : start + ds.length + 1 + L ≤ data.length)
    (hdata : data.length < USIZE_SIZE) :
    fbeString data start = .ok (start + ds.length + 1 + L) := by
  obtain ⟨_, hcolon, hextract, hin⟩ := scanner_digit_case hAg hne hdig
  have hutf : (utf8Decode? ds).isSome = true :=
    utf8Decode?_ascii fun b hb => by have := hdig b hb; omega
  have hall : ds.all isDigitByte = true := by
    rw [List.all_eq_true]
    intro b hb
    have := hdig b hb
    simp [isDigitByte]
    omega
  have hMU : MAX_STRING_LENGTH < USIZE_SIZE := by norm_num [MAX_STRING_LENGTH, USIZE_SIZE]
  have hsome : parseUsize? ds = some L := by
    unfold parseUsize?
    rw [if_pos ⟨hne, hall, by omega⟩, hval]
  unfold fbeString
  rw [hcolon]
  simp only [Nat.add_sub_cancel_left]
  rw [hextract, if_pos hin, if_pos hutf]
  split
  · rename_i heq
    rw [hsome] at heq
    cases heq
  · rename_i len heq
    rw [hsome] at heq
    injection heq with hlen'
    subst hlen'
    rw [if_neg (by omega), if_neg (by omega), if_neg (by omega)]

/-- Scanning a bencode-encoded string consumes exactly its encoding. -/
theorem fbeVal_encStr {bs : List Nat} (hbs : bs.length ≤ MAX_STRING_LENGTH)
    {data : List Nat} {start fuel : Nat}
    (hAg : Agrees data start (encStrBytes bs))
    (hfit : start + (encStrBytes bs).length ≤ data.length)
    (hdata : data.length < USIZE_SIZE) (hfuel : 1 ≤ fuel) :
    fbeVal fuel data start = some (.ok (start + (encStrBytes bs).length)) := by
  have hassoc : encStrBytes bs = (natDecDigits bs.length ++ [58]) ++ bs := by
    simp [encStrBytes]
  have hAg' : Agrees data start ((natDecDigits bs.length ++ [58]) ++ bs) := by
    rwa [hassoc] at hAg
  have hAgd : Agrees data start (natDecDigits bs.length ++ [58]) := hAg'.left
  have hlen := encStrBytes_length bs
  have hlt : start < data.length := by
    have := natDecDigits_ne_nil bs.length
    have hpos : 1 ≤ (natDecDigits bs.length).length := by
      cases h : natDecDigits bs.length with
      | nil => exact absurd h this
      | cons a t => simp
    omega
  have hhd := encStrBytes_head bs
  have hhd' : 48 ≤ data.getD start 0 ∧ data.getD start 0 ≤ 57 := by
    have h0 := hAg 0 (by
      rw [hlen]
      omega)
    rw [Nat.add_zero] at h0
    rw [h0]
    exact hhd
  rw [fbeVal_digit_dispatch hfuel hlt hhd']
  rw [fbeString_ok hAgd (natDecDigits_ne_nil bs.length)
    (fun b hb => natDecDigits_mem_bounds hb) (digitsVal_natDecDigits bs.length) hbs
    (by omega) hdata]
  have : start + (natDecDigits bs.length).length + 1 + bs.length =
      start + (encStrBytes bs).length := by omega
  rw [this]

theorem getD_bridge (data : List Nat) (i : Nat) : data[i]?.getD 0 = data.getD i 0 :=
  (List.getD_eq_getElem?_getD data i 0).symm

theorem natDecDigits_length_pos (n : Nat) : 1 ≤ (natDecDigits n).length := by
  cases h : natDecDigits n with
  | nil => exact absurd h (natDecDigits_ne_nil n)
  | cons a t => simp

theorem encBVal_length_pos (v : BVal) : 1 ≤ (encBVal v).length := by
  cases v with
  | str bs =>
    have := natDecDigits_length_pos bs.length
    have := encStrBytes_length bs
    simp only [encBVal]
    omega
  | int i => simp [encBVal]
  | list vs => simp [encBVal]
  | dict ps => simp [encBVal]

theorem encBVal_head_ne_e (v : BVal) : (encBVal v).getD 0 0 ≠ 101 := by
  cases v with
  | str bs =>
    have := encStrBytes_head bs
    simp only [encBVal]
    omega
  | int i => simp [encBVal]
  | list vs => simp [encBVal]
  | dict ps => simp [encBVal]

mutual
/-- Scanning any bencode-encoded value consumes exactly its encoding:
the inductive core of the C9 round trip. -/
theorem fbeVal_enc : ∀ (v : BVal), bvalWF v = true →
    ∀ (data : List Nat) (start fuel : Nat),
      Agrees data start (encBVal v) →
      start + (encBVal v).length ≤ data.length →
      data.length < USIZE_SIZE →
      2 * (encBVal v).length ≤ fuel →
      fbeVal fuel data start = some (.ok (start + (encBVal v).length))
  | .str bs, hwf, data, start, fuel, hAg, hfit, hdata, hfuel => by
    have hbs : bs.length ≤ MAX_STRING_LENGTH := by simpa [bvalWF] using hwf
    simp only [encBVal] at hAg hfit hfuel ⊢
    have hpos := encBVal_length_pos (.str bs)
    simp only [encBVal] at hpos
    exact fbeVal_encStr hbs hAg hfit hdata (by omega)
  | .int i, _, data, start, fuel, hAg, hfit, hdata, hfuel => by
    simp only [encBVal] at hAg hfit hfuel ⊢
    have hlen : (105 :: (intDecBytes i ++ [101])).length = (intDecBytes i).length + 2 := by
      simp
    have hb0 : data.getD start 0 = 105 := hAg.cons_head
    have hAgt : Agrees data (start + 1) (intDecBytes i ++ [101]) := hAg.cons_tail
    have hlt : start < data.length := by omega
    obtain ⟨f, rfl⟩ : ∃ f, fuel = f + 1 := ⟨fuel - 1, by omega⟩
    have hscan : scanToE data (start + 1) = start + 1 + (intDecBytes i).length := by
      unfold scanToE
      apply scanFor_spec (by omega) (intDecBytes i).length (data.length - (start + 1))
        (start + 1) data
      · intro j hj
        have := hAgt j (by simp; omega)
        rw [List.getD_append _ _ _ _ hj] at this
        rw [this]
        have hmem : (intDecBytes i).getD j 0 ∈ intDecBytes i := by
          rw [List.getD_eq_getElem _ _ hj]
          exact List.getElem_mem hj
        rcases intDecBytes_mem hmem with h | h <;> omega
      · have := hAgt (intDecBytes i).length (by simp)
        rwa [List.getD_append_right _ _ _ _ le_rfl, Nat.sub_self] at this
      · omega
    rw [fbeVal, if_pos hlt, if_pos hb0, hscan,
      if_pos (by omega)]
    exact congrArg (fun n => some (Except.ok n)) (by rw [hlen]; omega)
  | .list vs, hwf, data, start, fuel, hAg, hfit, hdata, hfuel => by
    simp only [encBVal] at hAg hfit hfuel ⊢
    have hlen : (108 :: (encBValList vs ++ [101])).length = (encBValList vs).length + 2 := by
      simp
    have hb0 : data.getD start 0 = 108 := hAg.cons_head
    have hAgt : Agrees data (start + 1) (encBValList vs ++ [101]) := hAg.cons_tail
    have hlt : start < data.length := by omega
    obtain ⟨f, rfl⟩ : ∃ f, fuel = f + 1 := ⟨fuel - 1, by omega⟩
    rw [fbeVal, if_pos hlt, if_neg (by rw [hb0]; omega), if_pos hb0]
    rw [fbeItems_enc vs (by simpa [bvalWF] using hwf) data (start + 1) f hAgt
      (by omega) hdata (by omega)]
    exact congrArg (fun n => some (Except.ok n)) (by rw [hlen]; omega)
  | .dict ps, hwf, data, start, fuel, hAg, hfit, hdata, hfuel => by
    simp only [encBVal] at hAg hfit hfuel ⊢
    have hlen : (100 :: (encBValPairs ps ++ [101])).length = (encBValPairs ps).length + 2 := by
      simp
    have hb0 : data.getD start 0 = 100 := hAg.cons_head
    have hAgt : Agrees data (start + 1) (encBValPairs ps ++ [101]) := hAg.cons_tail
    have hlt : start < data.length := by omega
    obtain ⟨f, rfl⟩ : ∃ f, fuel = f + 1 := ⟨fuel - 1, by omega⟩
    rw [fbeVal, if_pos hlt, if_neg (by rw [hb0]; omega), if_neg (by rw [hb0]; omega),
      if_pos hb0]
    rw [fbePairs_enc ps (by simpa [bvalWF] using hwf) data (start + 1) f hAgt
      (by omega) hdata (by omega)]
    exact congrArg (fun n => some (Except.ok n)) (by rw [hlen]; omega)

/-- The list loop consumes every encoded item and the closing `e`. -/
theorem fbeItems_enc : ∀ (vs : BValList), bvalListWF vs = true →
    ∀ (data : List Nat) (pos fuel : Nat),
      Agrees data pos (encBValList vs ++ [101]) →
      pos + (encBValList vs).length + 1 ≤ data.length →
      data.length < USIZE_SIZE →
      2 * (encBValList vs).length + 1 ≤ fuel →
      fbeItems fuel data pos = some (.ok (pos + (encBValList vs).length + 1))
  | .nil, _, data, pos, fuel, hAg, hfit, _, hfuel => by
    simp only [encBValList, List.nil_append, List.length_nil] at hAg hfit ⊢
    have hb : data.getD pos 0 = 101 := hAg.cons_head
    have hlt : pos < data.length := by omega
    obtain ⟨f, rfl⟩ : ∃ f, fuel = f + 1 := ⟨fuel - 1, by omega⟩
    rw [fbeItems, if_pos hlt, if_pos hb]
  | .cons v vs', hwf, data, pos, fuel, hAg, hfit, hdata, hfuel => by
    simp only [encBValList] at hAg hfit hfuel ⊢
    obtain ⟨hwfv, hwfvs⟩ : bvalWF v = true ∧ bvalListWF vs' = true := by
      simpa [bvalListWF, Bool.and_eq_true] using hwf
    have hassoc : (encBVal v ++ encBValList vs') ++ [101] =
        encBVal v ++ (encBValList vs' ++ [101]) := by
      simp [List.append_assoc]
    rw [hassoc] at hAg
    have hAgv : Agrees data pos (encBVal v) := hAg.left
    have hAgrest : Agrees data (pos + (encBVal v).length) (encBValList vs' ++ [101]) :=
      hAg.right
    have hlenv := encBVal_length_pos v
    have hlens : (encBVal v ++ encBValList vs').length =
        (encBVal v).length + (encBValList vs').length := by simp
    have hlt : pos < data.length := by omega
    have hb : data.getD pos 0 = (encBVal v).getD 0 0 := by
      have := hAgv 0 (by omega)
      rwa [Nat.add_zero] at this
    have hbne : data.getD pos 0 ≠ 101 := by
      rw [hb]
      exact encBVal_head_ne_e v
    obtain ⟨f, rfl⟩ : ∃ f, fuel = f + 1 := ⟨fuel - 1, by omega⟩
    rw [fbeItems, if_pos hlt, if_neg hbne]
    have hv := fbeVal_enc v hwfv data pos f hAgv (by omega) hdata (by omega)
    simp only [hv]
    rw [fbeItems_enc vs' hwfvs data (pos + (encBVal v).length) f hAgrest
      (by omega) hdata (by omega)]
    exact congrArg (fun n => some (Except.ok n)) (by omega)

/-- The dictionary loop consumes every encoded key/value pair and the
closing `e`. -/
theorem fbePairs_enc : ∀ (ps : BValPairs), bvalPairsWF ps = true →
    ∀ (data : List Nat) (pos fuel : Nat),
      Agrees data pos (encBValPairs ps ++ [101]) →
      pos + (encBValPairs ps).length + 1 ≤ data.length →
      data.length < USIZE_SIZE →
      2 * (encBValPairs ps).length + 1 ≤ fuel →
      fbePairs fuel data pos = some (.ok (pos + (encBValPairs ps).length + 1))
  | .nil, _, data, pos, fuel, hAg, hfit, _, hfuel => by
    simp only [encBValPairs, List.nil_append, List.length_nil] at hAg hfit ⊢
    have hb : data.getD pos 0 = 101 := hAg.cons_head
    have hlt : pos < data.length := by omega
    obtain ⟨f, rfl⟩ : ∃ f, fuel = f + 1 := ⟨fuel - 1, by omega⟩
    rw [fbePairs, if_pos hlt, if_pos hb]
  | .cons k v ps', hwf, data, pos, fuel, hAg, hfit, hdata, hfuel => by
    simp only [encBValPairs] at hAg hfit hfuel ⊢
    obtain ⟨hk, hwfv, hwfps⟩ :
        k.length ≤ MAX_STRING_LENGTH ∧ bvalWF v = true ∧ bvalPairsWF ps' = true := by
      simpa [bvalPairsWF, Bool.and_eq_true, decide_eq_true_eq, and_assoc] using hwf
    have hassoc : (encStrBytes k ++ (encBVal v ++ encBValPairs ps')) ++ [101] =
        encStrBytes k ++ (encBVal v ++ (encBValPairs ps' ++ [101])) := by
      simp [List.append_assoc]
    rw [hassoc] at hAg
    have hAgk : Agrees data pos (encStrBytes k) := hAg.left
    have hAgr1 : Agrees data (pos + (encStrBytes k).length)
        (encBVal v ++ (encBValPairs ps' ++ [101])) := hAg.right
    have hAgv : Agrees data (pos + (encStrBytes k).length) (encBVal v) := hAgr1.left
    have hAgrest : Agrees data (pos + (encStrBytes k).length + (encBVal v).length)
        (encBValPairs ps' ++ [101]) := hAgr1.right
    have hlenv := encBVal_length_pos v
    have hlenk : 1 ≤ (encStrBytes k).length := by
      have := encStrBytes_length k
      have := natDecDigits_length_pos k.length
      omega
    have hlens : (encStrBytes k ++ (encBVal v ++ encBValPairs ps')).length =
        (encStrBytes k).length + (encBVal v).length + (encBValPairs ps').length := by
      simp
      omega
    have hlt : pos < data.length := by omega
    have hb : data.getD pos 0 = (encStrBytes k).getD 0 0 := by
      have := hAgk 0 (by omega)
      rwa [Nat.add_zero] at this
    have hbne : data.getD pos 0 ≠ 101 := by
      have := encStrBytes_head k
      omega
    obtain ⟨f, rfl⟩ : ∃ f, fuel = f + 1 := ⟨fuel - 1, by omega⟩
    rw [fbePairs, if_pos hlt, if_neg hbne]
    have hkscan := fbeVal_encStr hk hAgk (by omega) hdata (by omega : 1 ≤ f)
    simp only [hkscan]
    have hvscan := fbeVal_enc v hwfv data (pos + (encStrBytes k).length) f hAgv
      (by omega) hdata (by omega)
    simp only [hvscan]
    rw [fbePairs_enc ps' hwfps data
      (pos + (encStrBytes k).length + (encBVal v).length) f hAgrest
      (by omega) hdata (by omega)]
    exact congrArg (fun n => some (Except.ok n)) (by omega)
end

/-- C9: for every well-formed `Request`, scanning its encoding from
offset 0 succeeds and consumes exactly the encoded length — no fewer and
no more bytes. -/
theorem c9_scan_encode_exact (r : Request) (h : r.wellFormed) :
    find_bencode_end (encode_request r) 0 = .ok (encode_request r).length := by
  obtain ⟨hwf, hlen⟩ := h
  have hAg : Agrees (encode_request r) 0 (encBVal (requestToBVal r)) := by
    intro i hi
    rw [Nat.zero_add, encode_request]
  have := fbeVal_enc (requestToBVal r) hwf (encode_request r) 0
    (2 * (encode_request r).length + 2) hAg (by rw [encode_request]; omega) hlen
    (by rw [encode_request]; omega)
  rw [find_bencode_end, this]
  exact congrArg (fun e => Option.getD e (Except.error fuelSentinel))
    (congrArg (fun n => some (Except.ok n)) (by rw [encode_request]; omega))

/-- Witness for C9 at the wire form of a concrete `clone` request. -/
theorem c9_scan_encode_exact_witness :
    find_bencode_end
        (encode_request ⟨"clone", "req-1", none, none, none, none, none, none, none,
          none, none, none, none, none, none, none, none, none, none, none⟩) 0 =
      .ok (encode_request ⟨"clone", "req-1", none, none, none, none, none, none, none,
          none, none, none, none, none, none, none, none, none, none, none⟩).length :=
  c9_scan_encode_exact _ ⟨by decide, by decide⟩

/-! ## Lemmas: the read loop (C1, C10) -/

theorem fbeString_error_isCodec {data : List Nat} {start : Nat} {e : NReplError}
    (h : fbeString data start = .error e) : e.isCodec = true := by
  unfold fbeString at h
  dsimp only at h
  split at h
  · split at h
    · split at h
      · simp at h
        subst h
        rfl
      · split at h
        · simp at h
          subst h
          rfl
        · split at h
          · simp at h
            subst h
            rfl
          · split at h
            · simp at h
              subst h
              rfl
            · simp at h
    · simp at h
      subst h
      rfl
  · simp at h
    subst h
    rfl

theorem fbeAllCodec : ∀ fuel : Nat,
    (∀ data start e, fbeVal fuel data start = some (.error e) → e.isCodec = true) ∧
    (∀ data pos e, fbeItems fuel data pos = some (.error e) → e.isCodec = true) ∧
    (∀ data pos e, fbePairs fuel data pos = some (.error e) → e.isCodec = true) := by
  intro fuel
  induction fuel with
  | zero =>
    refine ⟨?_, ?_, ?_⟩ <;> intro data pos e h <;>
      simp [fbeVal, fbeItems, fbePairs] at h
  | succ f ih =>
    obtain ⟨ihv, ihi, ihp⟩ := ih
    refine ⟨?_, ?_, ?_⟩
    · intro data start e h
      rw [fbeVal] at h
      split at h
      · split at h
        · split at h
          · simp at h
          · simp at h
            subst h
            rfl
        · split at h
          · exact ihi _ _ _ h
          · split at h
            · exact ihp _ _ _ h
            · split at h
              · have h' : fbeString data start = .error e := by
                  injection h
                exact fbeString_error_isCodec h'
              · simp at h
                subst h
                rfl
      · simp at h
        subst h
        rfl
    · intro data pos e h
      rw [fbeItems] at h
      split at h
      · split at h
        · simp at h
        · cases hv : fbeVal f data pos with
          | none => rw [hv] at h; simp at h
          | some res =>
            cases res with
            | error e0 =>
              rw [hv] at h
              simp at h
              subst h
              exact ihv _ _ _ hv
            | ok pos' =>
              rw [hv] at h
              simp at h
              exact ihi _ _ _ h
      · simp at h
        subst h
        rfl
    · intro data pos e h
      rw [fbePairs] at h
      split at h
      · split at h
        · simp at h
        · cases hv : fbeVal f data pos with
          | none => rw [hv] at h; simp at h
          | some res =>
            cases res with
            | error e0 =>
              rw [hv] at h
              simp at h
              subst h
              exact ihv _ _ _ hv
            | ok posK =>
              rw [hv] at h
              simp at h
              cases hv2 : fbeVal f data posK with
              | none => rw [hv2] at h; simp at h
              | some res2 =>
                cases res2 with
                | error e0 =>
                  rw [hv2] at h
                  simp at h
                  subst h
                  exact ihv _ _ _ hv2
                | ok posV =>
                  rw [hv2] at h
                  simp at h
                  exact ihp _ _ _ h
      · simp at h
        subst h
        rfl

theorem find_bencode_end_error_isCodec {data : List Nat} {start : Nat} {e : NReplError}
    (h : find_bencode_end data start = .error e) : e.isCodec = true := by
  rw [find_bencode_end] at h
  cases hv : fbeVal (2 * data.length + 2) data start with
  | none =>
    rw [hv] at h
    simp [fuelSentinel, NReplError.codec, NReplError.isCodec] at h
    subst h
    rfl
  | some res =>
    rw [hv] at h
    cases res with
    | error e0 =>
      simp at h
      subst h
      exact (fbeAllCodec _).1 _ _ _ hv
    | ok n => simp at h

theorem decode_response_error_isCodec {data : List Nat} {e : NReplError}
    (h : decode_response data = .error e) : e.isCodec = true := by
  unfold decode_response at h
  cases hf : find_bencode_end data 0 with
  | error e0 =>
    rw [hf] at h
    simp at h
    subst h
    exact find_bencode_end_error_isCodec hf
  | ok msg_len =>
    rw [hf] at h
    simp at h
    split at h
    · simp at h
    · simp at h
      subst h
      rfl

/-- The decode phase never finishes with a `Codec` error: a `Codec`
failure always turns into "read more" or the too-many-reads `Protocol`
error. -/
theorem tryDecodeStep_done_not_codec {st : NReplClient} {e : NReplError}
    {st' : NReplClient} (h : tryDecodeStep st = .done (.error e) st') :
    e.isCodec = false := by
  unfold tryDecodeStep at h
  split at h
  · simp at h
  · split at h
    · simp at h
    · split at h
      · simp at h
        obtain ⟨he, _⟩ := h
        subst he
        rfl
      · simp at h
    · rename_i e0 hnotcodec heq
      simp at h
      obtain ⟨he, _⟩ := h
      subst he
      have := decode_response_error_isCodec heq
      cases e0 with
      | Codec m p pv => exact absurd rfl (hnotcodec m p pv)
      | _ => simp [NReplError.isCodec] at this

/-- A successful decode resets the incomplete-read counter to zero. -/
theorem tryDecodeStep_ok_count {st : NReplClient} {r : Response} {st' : NReplClient}
    (h : tryDecodeStep st = .done (.ok r) st') : st'.incomplete_read_count = 0 := by
  unfold tryDecodeStep at h
  split at h
  · simp at h
  · split at h
    · simp at h
      obtain ⟨_, hst⟩ := h
      subst hst
      rfl
    · split at h
      · simp at h
      · simp at h
    · simp at h

theorem read_response_never_codec :
    ∀ (chunks : List (List Nat)) (st : NReplClient) (e : NReplError),
      (read_response st chunks).1 = .error e → e.isCodec = false := by
  intro chunks
  induction chunks with
  | nil =>
    intro st e h
    rw [read_response] at h
    cases hd : tryDecodeStep st with
    | done result st' =>
      rw [hd] at h
      simp at h
      cases result with
      | error e0 =>
        simp at h
        subst h
        exact tryDecodeStep_done_not_codec hd
      | ok r => simp at h
    | more st' =>
      rw [hd] at h
      simp at h
      subst h
      rfl
  | cons c rest ih =>
    intro st e h
    rw [read_response] at h
    cases hd : tryDecodeStep st with
    | done result st' =>
      rw [hd] at h
      simp at h
      cases result with
      | error e0 =>
        simp at h
        subst h
        exact tryDecodeStep_done_not_codec hd
      | ok r => simp at h
    | more st' =>
      rw [hd] at h
      simp at h
      split at h
      · simp at h
        subst h
        rfl
      · split at h
        · simp at h
          subst h
          rfl
        · exact ih _ _ h

/-- If the head decode fails with *any* codec error — malformed input
included — and the retry budget allows, `read_response` consumes one more
socket read and continues with the appended buffer. -/
theorem read_response_retry_step {st : NReplClient} {c : List Nat}
    {rest : List (List Nat)}
    (hbuf : st.buffer ≠ [])
    (hdec : ∃ m p pv, decode_response st.buffer = .error (.Codec m p pv))
    (hcnt : st.incomplete_read_count + 1 ≤ MAX_INCOMPLETE_READS)
    (hc : c ≠ [])
    (hsize : st.buffer.length + c.length ≤ MAX_RESPONSE_SIZE) :
    read_response st (c :: rest) =
      read_response
        { st with
            buffer := st.buffer ++ c
            incomplete_read_count := st.incomplete_read_count + 1 } rest := by
  obtain ⟨m, p, pv, hdec⟩ := hdec
  have hstep : tryDecodeStep st =
      .more { st with incomplete_read_count := st.incomplete_read_count + 1 } := by
    unfold tryDecodeStep
    rw [if_neg hbuf, hdec]
    rw [if_neg (by omega)]
  rw [read_response, hstep]
  dsimp only
  rw [if_neg hc, if_neg (by omega)]

/-- Exhausting the incomplete-read budget aborts with the `Protocol`
error, keeping the incremented counter; the starting counter value is
whatever was left over from earlier decode attempts. -/
theorem read_response_budget_exhausted {st : NReplClient} {chunks : List (List Nat)}
    (hbuf : st.buffer ≠ [])
    (hdec : ∃ m p pv, decode_response st.buffer = .error (.Codec m p pv))
    (hcnt : MAX_INCOMPLETE_READS < st.incomplete_read_count + 1) :
    read_response st chunks =
      (.error (NReplError.protocol
          ("Too many incomplete reads (" ++ decStr (st.incomplete_read_count + 1)
            ++ " attempts), possible incomplete/malformed message")),
        { st with incomplete_read_count := st.incomplete_read_count + 1 }, chunks) := by
  obtain ⟨m, p, pv, hdec⟩ := hdec
  have hstep : tryDecodeStep st =
      .done (.error (NReplError.protocol
          ("Too many incomplete reads (" ++ decStr (st.incomplete_read_count + 1)
            ++ " attempts), possible incomplete/malformed message")))
        { st with incomplete_read_count := st.incomplete_read_count + 1 } := by
    unfold tryDecodeStep
    rw [if_neg hbuf, hdec]
    rw [if_pos (by omega)]
  rw [read_response, hstep]

/-- Whenever `read_response` returns a response, the incomplete-read
counter has been reset to zero. -/
theorem read_response_ok_resets :
    ∀ (chunks : List (List Nat)) (st : NReplClient) (r : Response)
      (st' : NReplClient) (rest : List (List Nat)),
      read_response st chunks = (.ok r, st', rest) →
      st'.incomplete_read_count = 0 := by
  intro chunks
  induction chunks with
  | nil =>
    intro st r st' rest h
    rw [read_response] at h
    cases hd : tryDecodeStep st with
    | done result st'' =>
      rw [hd] at h
      simp at h
      obtain ⟨hres, hst, _⟩ := h
      subst hst
      exact tryDecodeStep_ok_count (hres ▸ hd)
    | more st'' =>
      rw [hd] at h
      simp at h
  | cons c rest0 ih =>
    intro st r st' rest h
    rw [read_response] at h
    cases hd : tryDecodeStep st with
    | done result st'' =>
      rw [hd] at h
      simp at h
      obtain ⟨hres, hst, _⟩ := h
      subst hst
      exact tryDecodeStep_ok_count (hres ▸ hd)
    | more st'' =>
      rw [hd] at h
      simp at h
      split at h
      · simp at h
      · split at h
        · simp at h
        · exact ih _ _ _ _ h

/-- `HashSet::insert` really puts the element in. -/
theorem mem_setInsert (l : List String) (x : String) : x ∈ setInsert l x := by
  unfold setInsert
  split
  · assumption
  · simp

/-! ## Claim C1 -/

/-- Claim C1, counterexample: a buffer whose first byte is `0x78` (`'x'`,
not one of `i`/`l`/`d`/digit) makes `decode_response` fail with an
*invalid-byte* `Codec` error, yet `read_response` does **not** abort with
that error: it goes back to the socket for more bytes (here the stream is
exhausted, so the call ends in the `Connection` error of a closed peer,
with the incomplete-read counter bumped to 1). -/
theorem c1_invalid_prefix_counterexample :
    decode_response [120] =
      .error (.Codec "Invalid bencode byte: 0x78" 0 (some " (buffer preview: 78)")) ∧
    read_response ⟨[], [120], 0, []⟩ [] =
      (.error (.Connection "connection closed"), ⟨[], [120], 1, []⟩, []) := by
  decide

/-- Claim C1, amended: the read loop treats *every* `Codec` failure of
`decode_response` — malformed input included, not just truncation — as
"read more bytes": within the retry budget it appends the next socket
chunk and continues, and no `read_response` call ever returns a `Codec`
error to its caller. -/
theorem c1_read_retry_on_all_codec_errors {st : NReplClient} {c : List Nat}
    {rest : List (List Nat)} {m : String} {p : Nat} {pv : Option String}
    (hdec : decode_response st.buffer = .error (.Codec m p pv))
    (hbuf : st.buffer ≠ [])
    (hcnt : st.incomplete_read_count + 1 ≤ MAX_INCOMPLETE_READS)
    (hc : c ≠ [])
    (hsize : st.buffer.length + c.length ≤ MAX_RESPONSE_SIZE) :
    read_response st (c :: rest) =
      read_response
        { st with
            buffer := st.buffer ++ c
            incomplete_read_count := st.incomplete_read_count + 1 } rest ∧
    ∀ (chunks : List (List Nat)) (st0 : NReplClient) (e : NReplError),
      (read_response st0 chunks).1 = .error e → e.isCodec = false :=
  ⟨read_response_retry_step hbuf ⟨m, p, pv, hdec⟩ hcnt hc hsize,
    fun chunks st0 e h => read_response_never_codec chunks st0 e h⟩

/-- Claim C1, witness: the amended theorem applied to the invalid-byte
buffer `[0x78]` with one more chunk `[0x64]` available. -/
theorem c1_read_retry_on_all_codec_errors_witness :
    decode_response [120] =
      .error (.Codec "Invalid bencode byte: 0x78" 0 (some " (buffer preview: 78)")) ∧
    ([120] : List Nat) ≠ [] ∧ 0 + 1 ≤ MAX_INCOMPLETE_READS ∧
    ([100] : List Nat) ≠ [] ∧ 1 + 1 ≤ MAX_RESPONSE_SIZE ∧
    read_response ⟨[], [120], 0, []⟩ [[100]] =
      read_response ⟨[], [120, 100], 1, []⟩ [] :=
  ⟨by decide, by decide, by decide, by decide, by decide,
    (@c1_read_retry_on_all_codec_errors ⟨[], [120], 0, []⟩ [100] []
        "Invalid bencode byte: 0x78" 0 (some " (buffer preview: 78)")
        (by decide) (by decide) (by decide) (by decide) (by decide)).1⟩

/-! ## Claim C10 -/

/-- Claim C10: the incomplete-read counter is reset to zero whenever
`read_response` returns a successfully decoded response, and the
`MAX_INCOMPLETE_READS` bound fires (with the `Protocol` error) as soon as
one more failed decode attempt would push the *carried-over* counter past
the limit — the counter is whatever earlier attempts left behind, it is
not cleared when a new call begins. -/
theorem c10_incomplete_read_budget {st : NReplClient} {chunks : List (List Nat)}
    {m : String} {p : Nat} {pv : Option String}
    (hdec : decode_response st.buffer = .error (.Codec m p pv))
    (hbuf : st.buffer ≠ [])
    (hcnt : MAX_INCOMPLETE_READS < st.incomplete_read_count + 1) :
    (∀ (chunks0 : List (List Nat)) (st0 : NReplClient) (r : Response)
        (st' : NReplClient) (rest : List (List Nat)),
      read_response st0 chunks0 = (.ok r, st', rest) →
      st'.incomplete_read_count = 0) ∧
    read_response st chunks =
      (.error (NReplError.protocol
          ("Too many incomplete reads (" ++ decStr (st.incomplete_read_count + 1)
            ++ " attempts), possible incomplete/malformed message")),
        { st with incomplete_read_count := st.incomplete_read_count + 1 }, chunks) :=
  ⟨fun c0 s0 r s' rst h => read_response_ok_resets c0 s0 r s' rst h,
    read_response_budget_exhausted hbuf ⟨m, p, pv, hdec⟩ hcnt⟩

/-- Claim C10, witness: a client that enters the call with 1000 failed
attempts already on the counter (left over from earlier reads) and an
undecodable buffer trips the budget at once. -/
theorem c10_incomplete_read_budget_witness :
    decode_response [120] =
      .error (.Codec "Invalid bencode byte: 0x78" 0 (some " (buffer preview: 78)")) ∧
    MAX_INCOMPLETE_READS < 1000 + 1 ∧
    read_response ⟨[], [120], 1000, []⟩ [] =
      (.error (NReplError.protocol
          ("Too many incomplete reads (" ++ decStr (1000 + 1)
            ++ " attempts), possible incomplete/malformed message")),
        ⟨[], [120], 1001, []⟩, []) :=
  ⟨by decide, by decide,
    (@c10_incomplete_read_budget ⟨[], [120], 1000, []⟩ []
        "Invalid bencode byte: 0x78" 0 (some " (buffer preview: 78)")
        (by decide) (by decide) (by decide)).2⟩

/-! ## Claim C2 -/

/-- Claim C2, counterexample: `describe` returns the very first response
on the stream even when its id (`"zzz"`) differs from the id of the
request that was just sent (`"req-1"`): `send_request` performs no id
check. -/
theorem c2_no_id_check_counterexample :
    (describe false ⟨emptyClient, 1, [baseResponse "zzz"], []⟩).1 =
      .ok (baseResponse "zzz") ∧
    (describe false ⟨emptyClient, 1, [baseResponse "zzz"], []⟩).2.sent.map
        (fun r => r.id) = ["req-1"] ∧
    ("zzz" : String) ≠ "req-1" := by
  decide

/-- Claim C2, amended: each single-response operation completes with the
*first* response read off the stream, whatever its id; `stdin`
additionally sends its request and returns without reading any response
at all. -/
theorem c2_first_response_unchecked (w : World) (r : Response)
    (rest : List Response) (s : Session) (sid t : String)
    (hin : w.incoming = r :: rest)
    (hs : findSession w.client.sessions s.id ≠ none)
    (hns : r.new_session = some sid) :
    (clone_session false w).1 = .ok ⟨sid⟩ ∧
    (describe false w).1 = .ok r ∧
    (ls_sessions w).1 = .ok (r.sessions.getD []) ∧
    (stdin s t w).1 = .ok () ∧
    (stdin s t w).2.incoming = w.incoming ∧
    (completions s t none none w).1 = .ok (r.completions.getD []) ∧
    (lookup s t none none w).1 = .ok r ∧
    (ls_middleware w).1 = .ok (r.middleware.getD []) ∧
    (add_middleware [t] none w).1 = .ok r ∧
    (swap_middleware [t] none w).1 = .ok r := by
  refine ⟨?_, ?_, ?_, ?_, ?_, ?_, ?_, ?_, ?_, ?_⟩ <;>
    simp [clone_session, clone_request, describe, describe_request, ls_sessions,
      ls_sessions_request, stdin, stdin_request, completions, completions_request,
      lookup, lookup_request, ls_middleware, ls_middleware_request, add_middleware,
      add_middleware_request, swap_middleware, swap_middleware_request,
      base_request, next_request_id, send_request, sendReq, validate_session,
      hin, hns, hs]

/-- Claim C2, witness: the amended theorem at a one-response stream whose
response id `"other"` matches none of the requests. -/
theorem c2_first_response_unchecked_witness :
    (⟨⟨[("sess", ⟨"sess"⟩)], [], 0, []⟩, 5,
        [{ baseResponse "other" with new_session := some "ns1" }], []⟩ :
      World).incoming =
      { baseResponse "other" with new_session := some "ns1" } :: [] ∧
    findSession
        (⟨⟨[("sess", ⟨"sess"⟩)], [], 0, []⟩, 5,
          [{ baseResponse "other" with new_session := some "ns1" }], []⟩ :
            World).client.sessions "sess" ≠ none ∧
    (describe false
        ⟨⟨[("sess", ⟨"sess"⟩)], [], 0, []⟩, 5,
          [{ baseResponse "other" with new_session := some "ns1" }], []⟩).1 =
      .ok { baseResponse "other" with new_session := some "ns1" } :=
  ⟨by decide, by decide,
    (c2_first_response_unchecked
        ⟨⟨[("sess", ⟨"sess"⟩)], [], 0, []⟩, 5,
          [{ baseResponse "other" with new_session := some "ns1" }], []⟩
        { baseResponse "other" with new_session := some "ns1" } [] ⟨"sess"⟩
        "ns1" "x" (by decide) (by decide) (by decide)).2.1⟩

/-! ## Claim C3 -/

/-- Claim C3, counterexample: closing a session that the local registry
does not track does **not** yield `SessionNotFound` — `close_session`
never consults the registry: the close request for the ghost session goes
out on the wire and the call succeeds on the server's `done`. -/
theorem c3_close_unvalidated_counterexample :
    findSession emptyClient.sessions "ghost" = none ∧
    close_session ⟨"ghost"⟩ false
        ⟨emptyClient, 1,
          [⟨"req-1", "", ["done"], none, none, none, none, none, none, none,
            none, none, none, none, none, none⟩], []⟩ =
      (.ok (), ⟨emptyClient, 2, [], [(close_request "ghost" 1).1]⟩) := by
  decide

/-- Claim C3, amended: the operations that *do* call `validate_session`
(`eval_with_timeout`, `eval`, `load_file`, `interrupt`, `stdin`,
`completions`, `lookup`) return `SessionNotFound` for an untracked
session id with the world untouched — no bytes sent; `close_session`,
however, skips validation and always writes its close request. -/
theorem c3_validation_scope (w : World) (s : Session) (code t : String)
    (dur : Nat) (e1 : Bool)
    (hs : findSession w.client.sessions s.id = none) :
    eval_with_timeout s code dur e1 w = (.error (.SessionNotFound s.id), w) ∧
    eval s code e1 w = (.error (.SessionNotFound s.id), w) ∧
    load_file s code none none w = (.error (.SessionNotFound s.id), w) ∧
    interrupt s t e1 w = (.error (.SessionNotFound s.id), w) ∧
    stdin s t w = (.error (.SessionNotFound s.id), w) ∧
    completions s t none none w = (.error (.SessionNotFound s.id), w) ∧
    lookup s t none none w = (.error (.SessionNotFound s.id), w) ∧
    (close_session s false w).2.sent =
      w.sent ++ [(close_request s.id w.counter).1] := by
  refine ⟨?_, ?_, ?_, ?_, ?_, ?_, ?_, ?_⟩
  · simp [eval_with_timeout, validate_session, hs]
  · simp [eval, eval_with_timeout, validate_session, hs]
  · simp [load_file, validate_session, hs]
  · simp [interrupt, validate_session, hs]
  · simp [stdin, validate_session, hs]
  · simp [completions, validate_session, hs]
  · simp [lookup, validate_session, hs]
  · rw [close_session]
    rw [if_neg (by decide)]
    dsimp only
    split
    · rename_i rest2 heq
      simp [sendReq, close_request, base_request, next_request_id]
    · rename_i e rest2 heq
      simp [sendReq, close_request, base_request, next_request_id]

/-- Claim C3, witness: the amended theorem on an empty registry with the
ghost session. -/
theorem c3_validation_scope_witness :
    findSession (⟨emptyClient, 1, [], []⟩ : World).client.sessions "ghost" = none ∧
    stdin ⟨"ghost"⟩ "x" ⟨emptyClient, 1, [], []⟩ =
      (.error (.SessionNotFound "ghost"), ⟨emptyClient, 1, [], []⟩) :=
  ⟨by decide,
    (c3_validation_scope ⟨emptyClient, 1, [], []⟩ ⟨"ghost"⟩ "c" "x" 7 false
        (by decide)).2.2.2.2.1⟩

/-! ## Claim C4 -/

/-- Claim C4, counterexample: an expired `clone_session` returns the
`Timeout` error but records nothing in `timed_out_ids`, although a
request id (`req-1`) was drawn for the attempt — only `eval` records its
timed-out id. -/
theorem c4_timeout_recording_counterexample :
    (clone_session true ⟨emptyClient, 1, [], []⟩).1 =
      .error (.Timeout "clone_session" 30) ∧
    (clone_session true ⟨emptyClient, 1, [], []⟩).2.counter = 2 ∧
    (clone_session true ⟨emptyClient, 1, [], []⟩).2.client.timed_out_ids = [] := by
  decide

/-- Claim C4, amended: every deadline-wrapped operation returns `Timeout`
with its own name and duration on expiry (`clone_session` 30 s, `eval`
its configured duration, `interrupt` and `close_session` 10 s), but only
`eval_with_timeout` records the expired request's id in `timed_out_ids`;
the other three leave the set untouched. -/
theorem c4_timeout_recording (w : World) (s : Session) (code istr : String)
    (dur : Nat) (hs : findSession w.client.sessions s.id ≠ none) :
    clone_session true w =
      (.error (.Timeout "clone_session" 30), { w with counter := w.counter + 1 }) ∧
    (eval_with_timeout s code dur true w).1 = .error (.Timeout "eval" dur) ∧
    mkReqId w.counter ∈
      (eval_with_timeout s code dur true w).2.client.timed_out_ids ∧
    interrupt s istr true w = (.error (.Timeout "interrupt" 10), w) ∧
    close_session s true w = (.error (.Timeout "close_session" 10), w) := by
  refine ⟨?_, ?_, ?_, ?_, ?_⟩
  · simp [clone_session, clone_request, base_request, next_request_id]
  · simp [eval_with_timeout, validate_session, hs]
  · simp only [eval_with_timeout, validate_session, hs, if_neg]
    simp [eval_request, base_request, next_request_id, hs]
    exact mem_setInsert _ _
  · simp [interrupt, validate_session, hs]
  · simp [close_session]

/-- Claim C4, witness: the amended theorem on a world tracking session
`"s1"`, with every deadline expired. -/
theorem c4_timeout_recording_witness :
    findSession
        (⟨⟨[("s1", ⟨"s1"⟩)], [], 0, []⟩, 4, [], []⟩ : World).client.sessions
        "s1" ≠ none ∧
    clone_session true ⟨⟨[("s1", ⟨"s1"⟩)], [], 0, []⟩, 4, [], []⟩ =
      (.error (.Timeout "clone_session" 30),
        ⟨⟨[("s1", ⟨"s1"⟩)], [], 0, []⟩, 5, [], []⟩) :=
  ⟨by decide,
    (c4_timeout_recording ⟨⟨[("s1", ⟨"s1"⟩)], [], 0, []⟩, 4, [], []⟩ ⟨"s1"⟩
        "(+ 1 2)" "i9" 60 (by decide)).1⟩

/-! ## Claim C5 -/

/-- Claim C5, counterexample: the request-id counter is shared by the
whole process, not scoped to a connection — a brand-new client whose
world carries the counter value left by another connection's first
request issues `"req-2"`, not `"req-1"`. -/
theorem c5_global_counter_counterexample :
    (describe false ⟨emptyClient, 1, [baseResponse "req-1"], []⟩).2.sent.map
        (fun r => r.id) = ["req-1"] ∧
    (describe false ⟨emptyClient, 1, [baseResponse "req-1"], []⟩).2.counter = 2 ∧
    (describe false ⟨emptyClient, 2, [baseResponse "req-2"], []⟩).2.sent.map
        (fun r => r.id) = ["req-2"] := by
  decide

/-- Claim C5, amended: ids come from the *process-wide* monotonic counter
(`static REQUEST_ID_COUNTER`): `base_request` stamps `req-<counter>` and
advances the counter, and distinct counter values always yield distinct
id strings — so ids remain unique within any one connection's lifetime
(indeed across the whole process). -/
theorem c5_request_id_uniqueness (op : String) (a b : Nat) (hab : a ≠ b) :
    (base_request op a).1.id = mkReqId a ∧
    (base_request op a).2 = a + 1 ∧
    mkReqId a ≠ mkReqId b :=
  ⟨rfl, rfl, fun h => hab (mkReqId_inj h)⟩

/-- Claim C5, witness: two successive counter values give two distinct
request ids. -/
theorem c5_request_id_uniqueness_witness :
    (1 : Nat) ≠ 2 ∧
    ((base_request "clone" 1).1.id = mkReqId 1 ∧
      (base_request "clone" 1).2 = 1 + 1 ∧
      mkReqId 1 ≠ mkReqId 2) :=
  ⟨by decide, c5_request_id_uniqueness "clone" 1 2 (by decide)⟩

/-- `foldOut` under both caps appends the (empty) chunk and keeps the
running total. -/
theorem foldOut_empty_chunk (acc : EvalResult) (total : Nat)
    (hcap : acc.output.length < MAX_OUTPUT_ENTRIES)
    (htot : total ≤ MAX_OUTPUT_TOTAL_SIZE) :
    foldOut acc total (some "") =
      .ok ({ acc with output := acc.output ++ [""] }, total) := by
  have h0 : (strBytes "").length = 0 := rfl
  rw [foldOut]
  rw [if_neg (by omega), if_neg (by omega)]
  rw [h0, Nat.add_zero]

/-- `foldErr` under both caps appends the (empty) chunk and keeps the
running total. -/
theorem foldErr_empty_chunk (acc : EvalResult) (total : Nat)
    (hcap : acc.error.length < MAX_OUTPUT_ENTRIES)
    (htot : total ≤ MAX_OUTPUT_TOTAL_SIZE) :
    foldErr acc total (some "") =
      .ok ({ acc with error := acc.error ++ [""] }, total) := by
  have h0 : (strBytes "").length = 0 := rfl
  rw [foldErr]
  rw [if_neg (by omega), if_neg (by omega)]
  rw [h0, Nat.add_zero]

/-- Consuming `k` matching `out`-chunk responses (entry cap respected)
appends `k` output entries and continues. -/
theorem accumLoop_out_replicate (req : Request) (rOut : Response)
    (hid : rOut.id = req.id) (hout : rOut.out = some "")
    (herr : rOut.err = none) (hval : rOut.value = none)
    (hns : rOut.ns = none) (hst : rOut.status = []) :
    ∀ (k : Nat) (acc : EvalResult) (total : Nat) (rest : List Response),
      acc.output.length + k ≤ MAX_OUTPUT_ENTRIES →
      total ≤ MAX_OUTPUT_TOTAL_SIZE →
      accumLoop req acc total [] (List.replicate k rOut ++ rest) =
        accumLoop req { acc with output := acc.output ++ List.replicate k "" }
          total [] rest := by
  intro k
  induction k with
  | zero =>
    intro acc total rest _ _
    simp
  | succ n ih =>
    intro acc total rest hcap htot
    rw [List.replicate_succ, List.cons_append, accumLoop]
    rw [if_neg (by simp), if_neg (by simp [hid])]
    rw [hout, foldOut_empty_chunk acc total (by omega) htot]
    dsimp only
    rw [herr]
    rw [show foldErr { acc with output := acc.output ++ [""] } total none =
      .ok ({ acc with output := acc.output ++ [""] }, total) from rfl]
    dsimp only
    rw [hval, hns, hst]
    dsimp only
    rw [if_neg (by simp)]
    rw [ih _ _ _ (by simp; omega) htot]
    simp [List.replicate_succ]

/-- Consuming `k` matching `err`-chunk responses (entry cap respected)
appends `k` error entries and continues. -/
theorem accumLoop_err_replicate (req : Request) (rErr : Response)
    (hid : rErr.id = req.id) (hout : rErr.out = none)
    (herr : rErr.err = some "") (hval : rErr.value = none)
    (hns : rErr.ns = none) (hst : rErr.status = []) :
    ∀ (k : Nat) (acc : EvalResult) (total : Nat) (rest : List Response),
      acc.error.length + k ≤ MAX_OUTPUT_ENTRIES →
      total ≤ MAX_OUTPUT_TOTAL_SIZE →
      accumLoop req acc total [] (List.replicate k rErr ++ rest) =
        accumLoop req { acc with error := acc.error ++ List.replicate k "" }
          total [] rest := by
  intro k
  induction k with
  | zero =>
    intro acc total rest _ _
    simp
  | succ n ih =>
    intro acc total rest hcap htot
    rw [List.replicate_succ, List.cons_append, accumLoop]
    rw [if_neg (by simp), if_neg (by simp [hid])]
    rw [hout]
    rw [show foldOut acc total none = .ok (acc, total) from rfl]
    dsimp only
    rw [herr, foldErr_empty_chunk acc total (by omega) htot]
    dsimp only
    rw [hval, hns, hst]
    dsimp only
    rw [if_neg (by simp)]
    rw [ih _ _ _ (by simp; omega) htot]
    simp [List.replicate_succ]

/-- A matching plain `done` response ends the loop with the accumulator
as it stands. -/
theorem accumLoop_done_step (req : Request) (rDone : Response) (acc : EvalResult)
    (total : Nat) (rest : List Response)
    (hid : rDone.id = req.id) (hout : rDone.out = none) (herr : rDone.err = none)
    (hval : rDone.value = none) (hns : rDone.ns = none)
    (hst : rDone.status = ["done"]) :
    accumLoop req acc total [] (rDone :: rest) = (.ok acc, [], rest) := by
  rw [accumLoop]
  rw [if_neg (by simp), if_neg (by simp [hid])]
  rw [hout]
  rw [show foldOut acc total none = .ok (acc, total) from rfl]
  dsimp only
  rw [herr]
  rw [show foldErr acc total none = .ok (acc, total) from rfl]
  dsimp only
  rw [hval, hns, hst]
  dsimp only
  rw [if_pos (by decide)]

/-- A matching `out` chunk arriving with the entry cap already reached
kills the operation with the entry-limit `Protocol` error. -/
theorem accumLoop_out_cap_step (req : Request) (rOut : Response) (acc : EvalResult)
    (total : Nat) (rest : List Response)
    (hid : rOut.id = req.id) (hout : rOut.out = some "")
    (hcap : acc.output.length ≥ MAX_OUTPUT_ENTRIES) :
    accumLoop req acc total [] (rOut :: rest) =
      (.error (NReplError.protocol ("Output exceeded maximum entries limit ("
        ++ decStr MAX_OUTPUT_ENTRIES ++ " entries)")), [], rest) := by
  have hf : foldOut acc total (some "") =
      .error (NReplError.protocol ("Output exceeded maximum entries limit ("
        ++ decStr MAX_OUTPUT_ENTRIES ++ " entries)")) := by
    rw [foldOut]
    rw [if_pos hcap]
  rw [accumLoop]
  rw [if_neg (by simp), if_neg (by simp [hid])]
  rw [hout, hf]

/-- A matching `err` chunk arriving with the entry cap already reached
kills the operation with the error-entry-limit `Protocol` error. -/
theorem accumLoop_err_cap_step (req : Request) (rErr : Response) (acc : EvalResult)
    (total : Nat) (rest : List Response)
    (hid : rErr.id = req.id) (hout : rErr.out = none) (herr : rErr.err = some "")
    (hcap : acc.error.length ≥ MAX_OUTPUT_ENTRIES) :
    accumLoop req acc total [] (rErr :: rest) =
      (.error (NReplError.protocol ("Error output exceeded maximum entries limit ("
        ++ decStr MAX_OUTPUT_ENTRIES ++ " entries)")), [], rest) := by
  have hf : foldErr acc total (some "") =
      .error (NReplError.protocol ("Error output exceeded maximum entries limit ("
        ++ decStr MAX_OUTPUT_ENTRIES ++ " entries)")) := by
    rw [foldErr]
    rw [if_pos hcap]
  rw [accumLoop]
  rw [if_neg (by simp), if_neg (by simp [hid])]
  rw [hout]
  rw [show foldOut acc total none = .ok (acc, total) from rfl]
  dsimp only
  rw [herr, hf]

/-! ## Claim C6 -/

/-- Claim C6: the accumulation loop skips any response whose id differs
from the outstanding request's id (when it is not a timed-out id), and on
the claim's scenario — `out "hi\n"` then, after an interloping response
with id "2", a `done` carrying `value "3"` and `ns "user"` — it folds in
arrival order to exactly `EvalResult ⟨some "3", ["hi\n"], [], some "user"⟩`. -/
theorem c6_accumulate_fold_skip_done (request : Request) (acc : EvalResult)
    (total : Nat) (tids : List String) (r : Response) (rest : List Response)
    (hnt : r.id ∉ tids) (hskip : r.id ≠ request.id) :
    accumLoop request acc total tids (r :: rest) =
      accumLoop request acc total tids rest ∧
    accumLoop ⟨"eval", "1", some "s", some "(+ 1 2)", none, none, none, none, none,
        none, none, none, none, none, none, none, none, none, none, none⟩
      EvalResult.new 0 []
      [{ baseResponse "1" with out := some "hi\n" },
        baseResponse "2",
        { baseResponse "1" with
            value := some "3"
            status := ["done"]
            ns := some "user" }] =
      (.ok ⟨some "3", ["hi\n"], [], some "user"⟩, [], []) := by
  constructor
  · rw [accumLoop]
    rw [if_neg hnt, if_pos hskip]
  · decide

/-- Claim C6, witness: the skip step applied to the interloping response
with id "2" while awaiting id "1". -/
theorem c6_accumulate_fold_skip_done_witness :
    ("2" : String) ∉ ([] : List String) ∧
    (baseResponse "2").id ≠ (⟨"eval", "1", some "s", some "(+ 1 2)", none, none, none, none, none,
        none, none, none, none, none, none, none, none, none, none, none⟩ : Request).id ∧
    accumLoop ⟨"eval", "1", some "s", some "(+ 1 2)", none, none, none, none, none,
        none, none, none, none, none, none, none, none, none, none, none⟩
        EvalResult.new 0 [] (baseResponse "2" ::
          [{ baseResponse "1" with
            value := some "3"
            status := ["done"]
            ns := some "user" }]) =
      accumLoop ⟨"eval", "1", some "s", some "(+ 1 2)", none, none, none, none, none,
        none, none, none, none, none, none, none, none, none, none, none⟩
        EvalResult.new 0 []
        [{ baseResponse "1" with
            value := some "3"
            status := ["done"]
            ns := some "user" }] :=
  ⟨by decide, by decide,
    (c6_accumulate_fold_skip_done ⟨"eval", "1", some "s", some "(+ 1 2)", none, none, none, none, none,
        none, none, none, none, none, none, none, none, none, none, none⟩
        EvalResult.new 0 [] (baseResponse "2")
        [{ baseResponse "1" with
            value := some "3"
            status := ["done"]
            ns := some "user" }] (by decide) (by decide)).1⟩

/-- Projection of `send_and_accumulate_responses` onto its result: the
operation result is that of the accumulation loop run over the pending
responses with the current timed-out set. -/
theorem send_accum_fst (request : Request) (operation : String) (w : World) :
    (send_and_accumulate_responses request operation w).1 =
      (accumLoop request EvalResult.new 0 w.client.timed_out_ids w.incoming).1 := by
  rw [send_and_accumulate_responses]
  dsimp only [sendReq]

/-! ## Claim C7 -/

/-- Claim C7: during one eval, exactly `MAX_OUTPUT_ENTRIES` (10,000)
`out` chunks accumulate successfully, while a 10,001st makes the whole
operation fail with the entry-count-limit `Protocol` error; the same cap
applies to `err` chunks (with the error-output message). -/
theorem c7_output_entry_caps :
    (send_and_accumulate_responses ⟨"eval", "1", some "s", some "(+ 1 2)", none, none, none, none, none,
        none, none, none, none, none, none, none, none, none, none, none⟩ "eval"
        ⟨emptyClient, 1, List.replicate MAX_OUTPUT_ENTRIES ⟨"1", "", [], none, some "", none, none, none, none, none, none, none,
        none, none, none, none⟩ ++ [⟨"1", "", ["done"], none, none, none, none, none, none, none, none,
        none, none, none, none, none⟩],
          []⟩).1 =
      .ok ⟨none, List.replicate MAX_OUTPUT_ENTRIES "", [], none⟩ ∧
    (send_and_accumulate_responses ⟨"eval", "1", some "s", some "(+ 1 2)", none, none, none, none, none,
        none, none, none, none, none, none, none, none, none, none, none⟩ "eval"
        ⟨emptyClient, 1,
          List.replicate (MAX_OUTPUT_ENTRIES + 1) ⟨"1", "", [], none, some "", none, none, none, none, none, none, none,
        none, none, none, none⟩ ++ [⟨"1", "", ["done"], none, none, none, none, none, none, none, none,
        none, none, none, none, none⟩], []⟩).1 =
      .error (NReplError.protocol ("Output exceeded maximum entries limit ("
        ++ decStr MAX_OUTPUT_ENTRIES ++ " entries)")) ∧
    (send_and_accumulate_responses ⟨"eval", "1", some "s", some "(+ 1 2)", none, none, none, none, none,
        none, none, none, none, none, none, none, none, none, none, none⟩ "eval"
        ⟨emptyClient, 1, List.replicate MAX_OUTPUT_ENTRIES ⟨"1", "", [], none, none, some "", none, none, none, none, none, none,
        none, none, none, none⟩ ++ [⟨"1", "", ["done"], none, none, none, none, none, none, none, none,
        none, none, none, none, none⟩],
          []⟩).1 =
      .ok ⟨none, [], List.replicate MAX_OUTPUT_ENTRIES "", none⟩ ∧
    (send_and_accumulate_responses ⟨"eval", "1", some "s", some "(+ 1 2)", none, none, none, none, none,
        none, none, none, none, none, none, none, none, none, none, none⟩ "eval"
        ⟨emptyClient, 1,
          List.replicate (MAX_OUTPUT_ENTRIES + 1) ⟨"1", "", [], none, none, some "", none, none, none, none, none, none,
        none, none, none, none⟩ ++ [⟨"1", "", ["done"], none, none, none, none, none, none, none, none,
        none, none, none, none, none⟩], []⟩).1 =
      .error (NReplError.protocol ("Error output exceeded maximum entries limit ("
        ++ decStr MAX_OUTPUT_ENTRIES ++ " entries)")) := by
  refine ⟨?_, ?_, ?_, ?_⟩
  · have hstep : accumLoop ⟨"eval", "1", some "s", some "(+ 1 2)", none, none, none, none, none,
        none, none, none, none, none, none, none, none, none, none, none⟩
        EvalResult.new 0 [] (List.replicate MAX_OUTPUT_ENTRIES ⟨"1", "", [], none, some "", none, none, none, none, none, none, none,
        none, none, none, none⟩ ++ [⟨"1", "", ["done"], none, none, none, none, none, none, none, none,
        none, none, none, none, none⟩]) =
        (.ok ⟨none, List.replicate MAX_OUTPUT_ENTRIES "", [], none⟩, [], []) := by
      rw [accumLoop_out_replicate _ _ rfl rfl rfl rfl rfl rfl _ _ _ _
        (by decide) (Nat.zero_le _)]
      rw [accumLoop_done_step _ _ _ _ _ rfl rfl rfl rfl rfl rfl]
      simp [EvalResult.new]
    rw [send_accum_fst]
    dsimp only [emptyClient]
    rw [hstep]
  · have hstep : accumLoop ⟨"eval", "1", some "s", some "(+ 1 2)", none, none, none, none, none,
        none, none, none, none, none, none, none, none, none, none, none⟩
        EvalResult.new 0 []
        (List.replicate (MAX_OUTPUT_ENTRIES + 1) ⟨"1", "", [], none, some "", none, none, none, none, none, none, none,
        none, none, none, none⟩ ++ [⟨"1", "", ["done"], none, none, none, none, none, none, none, none,
        none, none, none, none, none⟩]) =
        (.error (NReplError.protocol ("Output exceeded maximum entries limit ("
          ++ decStr MAX_OUTPUT_ENTRIES ++ " entries)")), [], [⟨"1", "", ["done"], none, none, none, none, none, none, none, none,
        none, none, none, none, none⟩]) := by
      rw [List.replicate_succ', List.append_assoc]
      rw [accumLoop_out_replicate _ _ rfl rfl rfl rfl rfl rfl _ _ _ _
        (by decide) (Nat.zero_le _)]
      rw [show ([⟨"1", "", [], none, some "", none, none, none, none, none, none, none,
        none, none, none, none⟩] ++ [⟨"1", "", ["done"], none, none, none, none, none, none, none, none,
        none, none, none, none, none⟩] : List Response) = ⟨"1", "", [], none, some "", none, none, none, none, none, none, none,
        none, none, none, none⟩ :: [⟨"1", "", ["done"], none, none, none, none, none, none, none, none,
        none, none, none, none, none⟩] from rfl]
      rw [accumLoop_out_cap_step _ _ _ _ _ rfl rfl (by simp [EvalResult.new])]
    rw [send_accum_fst]
    dsimp only [emptyClient]
    rw [hstep]
  · have hstep : accumLoop ⟨"eval", "1", some "s", some "(+ 1 2)", none, none, none, none, none,
        none, none, none, none, none, none, none, none, none, none, none⟩
        EvalResult.new 0 [] (List.replicate MAX_OUTPUT_ENTRIES ⟨"1", "", [], none, none, some "", none, none, none, none, none, none,
        none, none, none, none⟩ ++ [⟨"1", "", ["done"], none, none, none, none, none, none, none, none,
        none, none, none, none, none⟩]) =
        (.ok ⟨none, [], List.replicate MAX_OUTPUT_ENTRIES "", none⟩, [], []) := by
      rw [accumLoop_err_replicate _ _ rfl rfl rfl rfl rfl rfl _ _ _ _
        (by decide) (Nat.zero_le _)]
      rw [accumLoop_done_step _ _ _ _ _ rfl rfl rfl rfl rfl rfl]
      simp [EvalResult.new]
    rw [send_accum_fst]
    dsimp only [emptyClient]
    rw [hstep]
  · have hstep : accumLoop ⟨"eval", "1", some "s", some "(+ 1 2)", none, none, none, none, none,
        none, none, none, none, none, none, none, none, none, none, none⟩
        EvalResult.new 0 []
        (List.replicate (MAX_OUTPUT_ENTRIES + 1) ⟨"1", "", [], none, none, some "", none, none, none, none, none, none,
        none, none, none, none⟩ ++ [⟨"1", "", ["done"], none, none, none, none, none, none, none, none,
        none, none, none, none, none⟩]) =
        (.error (NReplError.protocol ("Error output exceeded maximum entries limit ("
          ++ decStr MAX_OUTPUT_ENTRIES ++ " entries)")), [], [⟨"1", "", ["done"], none, none, none, none, none, none, none, none,
        none, none, none, none, none⟩]) := by
      rw [List.replicate_succ', List.append_assoc]
      rw [accumLoop_err_replicate _ _ rfl rfl rfl rfl rfl rfl _ _ _ _
        (by decide) (Nat.zero_le _)]
      rw [show ([⟨"1", "", [], none, none, some "", none, none, none, none, none, none,
        none, none, none, none⟩] ++ [⟨"1", "", ["done"], none, none, none, none, none, none, none, none,
        none, none, none, none, none⟩] : List Response) = ⟨"1", "", [], none, none, some "", none, none, none, none, none, none,
        none, none, none, none⟩ :: [⟨"1", "", ["done"], none, none, none, none, none, none, none, none,
        none, none, none, none, none⟩] from rfl]
      rw [accumLoop_err_cap_step _ _ _ _ _ rfl rfl rfl (by simp [EvalResult.new])]
    rw [send_accum_fst]
    dsimp only [emptyClient]
    rw [hstep]

end NRepl

